import Mathlib

/-!
sentinel-visor: block-data accumulator and transactional flush.

A shallow embedding of

* `services/indexer/types.go`  (`UnindexedBlockData`: `Add`, `Has`, `Highest`, `Size`, `Persist`),
* `model/actors/init/idaddress.go` (`IdAddress`, `IdAddressList`),
* `model/messages/message.go` (`Message`, `Messages`),

followed by the properties stated for them.

Conventions of the embedding:

* a Go pointer that may be `nil` is an `Option`;
* a Go method that mutates its receiver returns the new receiver;
* a Go `error` result is an `Except GoError _`, the `nil` error being `Except.ok`;
* a Go run-time panic is an `Except GoPanic _`;
* `map[cid.Cid]struct{}` (a set, never iterated by the code) is a `Finset Cid`;
* a relation of the database is a bag of rows (`Multiset`), a transaction is the relations
  it works on, and a transaction that is rolled back, or whose `COMMIT` is refused, leaves
  the database it started from;
* the five goroutines of `Persist` write five different relations, so one run of them is
  taken as a serial order, the order in which they return.

Package `model/blocks` (the five record types, their derivation from a block header and
their list writers) is used by `types.go` but is not among the sources; its parts are
modelled from the specification and marked as such.
-/

set_option autoImplicit false

namespace Visor

/-! ## External types (lotus, go-cid) -/

/-- The content identifier `cid.Cid` of go-cid: a comparable value wrapping one string. -/
structure Cid where
  str : String
deriving DecidableEq, Repr

/-- The `types.BeaconEntry` of lotus: a randomness-beacon round and its payload. -/
structure BeaconEntry where
  Round : Nat
  Data : List Nat
deriving DecidableEq, Repr

/-- The part of the lotus `types.BlockHeader` that this code reads.  `cid` stands for the
result of the method `Cid()`, which lotus computes from the serialised header; `Height` is
an `abi.ChainEpoch` (an `int64`), only ever compared, never computed with. -/
structure BlockHeader where
  cid : Cid
  Height : Int
  Parents : List Cid
  BeaconEntries : List BeaconEntry
  ParentStateRoot : Cid
deriving DecidableEq, Repr

/-- The method `(*BlockHeader).Cid()`. -/
def BlockHeader.Cid (bh : BlockHeader) : Cid := bh.cid

/-! ## Records of `model/blocks` -/

/-- Row of the block-header relation, primary key `Cid`. -/
structure BlockHeaderRecord where
  Cid : Visor.Cid
  Height : Int
  ParentStateRoot : Visor.Cid
deriving DecidableEq, Repr

/-- Row of the sync-status relation, primary key `Cid`. -/
structure BlockSynced where
  Cid : Visor.Cid
deriving DecidableEq, Repr

/-- Row of the parent-edge relation, primary key `(Block, Parent)`. -/
structure BlockParent where
  Block : Cid
  Parent : Cid
deriving DecidableEq, Repr

/-- Row of the epoch-entry relation, primary key `Round`. -/
structure DrandEntrie where
  Round : Nat
  Data : List Nat
deriving DecidableEq, Repr

/-- Row of the block/epoch-entry association, primary key `(Block, Round)`. -/
structure DrandBlockEntrie where
  Round : Nat
  Block : Cid
deriving DecidableEq, Repr

/-- Modelled from the spec: `blocks.NewBlockHeader` (package `model/blocks`) derives exactly
one header record from a block, carrying its content identifier, height and parent state
root. -/
def NewBlockHeader (bh : BlockHeader) : BlockHeaderRecord :=
  { Cid := bh.Cid, Height := bh.Height, ParentStateRoot := bh.ParentStateRoot }

/-- Modelled from the spec: `blocks.NewBlockSynced` (package `model/blocks`) derives exactly
one sync-status record from a block, keyed by its content identifier.  The wall-clock
timestamp of the record is not part of the model. -/
def NewBlockSynced (bh : BlockHeader) : BlockSynced :=
  { Cid := bh.Cid }

/-- Modelled from the spec: `blocks.NewBlockParents` (package `model/blocks`) derives one
parent edge per declared parent, in the order of declaration. -/
def NewBlockParents (bh : BlockHeader) : List BlockParent :=
  bh.Parents.map (fun p => { Block := bh.Cid, Parent := p })

/-- Modelled from the spec: `blocks.NewDrandEnties` (package `model/blocks`) derives one
epoch-entry record per beacon entry of the block. -/
def NewDrandEnties (bh : BlockHeader) : List DrandEntrie :=
  bh.BeaconEntries.map (fun e => { Round := e.Round, Data := e.Data })

/-- Modelled from the spec: `blocks.NewDrandBlockEntries` (package `model/blocks`) derives
one block/epoch-entry association per beacon entry of the block. -/
def NewDrandBlockEntries (bh : BlockHeader) : List DrandBlockEntrie :=
  bh.BeaconEntries.map (fun e => { Round := e.Round, Block := bh.Cid })

/-! ## `services/indexer/types.go`: the accumulator -/

deriving instance DecidableEq for Except

/-- A run-time panic of the Go program. -/
inductive GoPanic where
  | nilPointerDereference
deriving DecidableEq, Repr

/-- The struct `UnindexedBlockData`.  `has` is the map allocated by the constructor, the
only place where the field is assigned; `highest` is the pointer field, `none` for `nil`.
A zero-valued struct made without the constructor (nil map) is not an accumulator of this
model. -/
structure UnindexedBlockData where
  has : Finset Cid
  highest : Option BlockHeader
  blks : List BlockHeaderRecord
  synced : List BlockSynced
  parents : List BlockParent
  drandEntries : List DrandEntrie
  drandBlockEntries : List DrandBlockEntrie

/-- `NewUnindexedBlockData`: an empty map, every other field at its zero value. -/
def NewUnindexedBlockData : UnindexedBlockData :=
  { has := ∅, highest := none, blks := [], synced := [], parents := [],
    drandEntries := [], drandBlockEntries := [] }

namespace UnindexedBlockData

/-- `Highest`: dereferences `u.highest` without a nil check, so a nil pointer panics when
`u.highest.Height` is read. -/
def Highest (u : UnindexedBlockData) : Except GoPanic (Cid × Int) :=
  match u.highest with
  | none => .error .nilPointerDereference
  | some h => .ok (h.Cid, h.Height)

/-- `Add`: records the identifier, moves `highest` when it is nil or strictly lower, and
appends the derived records to the five buffers. -/
def Add (u : UnindexedBlockData) (bh : BlockHeader) : UnindexedBlockData :=
  { has := insert bh.Cid u.has
    highest :=
      match u.highest with
      | none => some bh
      | some h => if h.Height < bh.Height then some bh else some h
    blks := u.blks ++ [NewBlockHeader bh]
    synced := u.synced ++ [NewBlockSynced bh]
    parents := u.parents ++ NewBlockParents bh
    drandEntries := u.drandEntries ++ NewDrandEnties bh
    drandBlockEntries := u.drandBlockEntries ++ NewDrandBlockEntries bh }

/-- `Has`: membership of the block's identifier in the map. -/
def Has (u : UnindexedBlockData) (bh : BlockHeader) : Bool :=
  decide (bh.Cid ∈ u.has)

/-- `Size`: `len(u.has)`. -/
def Size (u : UnindexedBlockData) : Nat :=
  u.has.card

/-- A sequence of `Add` calls, in list order. -/
def addAll (u : UnindexedBlockData) (bhs : List BlockHeader) : UnindexedBlockData :=
  bhs.foldl Add u

/-- The rule by which `Add` moves the `highest` pointer, as a function of the pointer. -/
def stepHighest (acc : Option BlockHeader) (bh : BlockHeader) : Option BlockHeader :=
  match acc with
  | none => some bh
  | some h => if h.Height < bh.Height then some bh else some h

end UnindexedBlockData

/-! ## Go errors -/

/-- A Go `error` value: either a plain error with its message, or an error made by
`fmt.Errorf` / `xerrors.Errorf` with the verb `%w`, which keeps the wrapped error. -/
inductive GoError where
  | new (msg : String)
  | wrap (msg : String) (err : GoError)
deriving DecidableEq, Repr

/-- The method `Error()`. -/
def GoError.Error : GoError → String
  | .new msg => msg
  | .wrap msg _ => msg

/-- The method `Unwrap()` behind `errors.Unwrap`. -/
def GoError.Unwrap : GoError → Option GoError
  | .new _ => none
  | .wrap _ err => some err

/-- The call `fmt.Errorf(pre + "%w", err)` (and `xerrors.Errorf` likewise). -/
def Errorf (pre : String) (err : GoError) : GoError :=
  .wrap (pre ++ err.Error) err

/-! ## The store (go-pg over a relational database)

A relation is a bag of rows.  The store may refuse an insert for a reason other than a
primary-key conflict (connection loss, another constraint, serialisation); which inserts it
refuses is the store's business and is carried by the relation as `fail`, a function of the
rows present and of the row offered.  `BEGIN` and `COMMIT` may be refused as well, see
`Store`. -/

/-- One relation of the store, as seen inside a transaction. -/
structure Table (α : Type) where
  rows : Multiset α
  fail : Multiset α → α → Option GoError

/-- The effect of `INSERT ... ON CONFLICT DO NOTHING` on the rows of a relation with primary
key `pk`: the row is added unless a row with the same primary key is present. -/
def insertRow {α κ : Type} [DecidableEq κ] (pk : α → κ) (r : α) (rows : Multiset α) :
    Multiset α :=
  if pk r ∈ rows.map pk then rows else r ::ₘ rows

/-- The rows of a relation after a batch has been inserted, row after row, by a store that
refuses nothing. -/
def upsertRows {α κ : Type} [DecidableEq κ] (pk : α → κ) (l : List α) (rows : Multiset α) :
    Multiset α :=
  l.foldl (fun acc r => insertRow pk r acc) rows

/-- The store refuses no insert into this relation. -/
def Table.faultFree {α : Type} (t : Table α) : Prop :=
  ∀ rows r, t.fail rows r = none

/-- No two rows of the relation have the same primary key. -/
def Table.keysUnique {α κ : Type} (pk : α → κ) (t : Table α) : Prop :=
  (t.rows.map pk).Nodup

/-- The statement `tx.ModelContext(ctx, r).OnConflict("do nothing").Insert()` on the relation
of `r`, whose primary key is `pk`: an error of the store is returned; otherwise the row is
added unless a row with the same primary key is present, in which case nothing changes. -/
def Table.Insert {α κ : Type} [DecidableEq κ] (pk : α → κ) (t : Table α) (r : α) :
    Except GoError (Table α) :=
  match t.fail t.rows r with
  | some err => .error err
  | none => .ok { t with rows := insertRow pk r t.rows }

/-- Inserts a batch into one relation, row after row, stopping at the first error. -/
def Table.upsertAll {α κ : Type} [DecidableEq κ] (pk : α → κ) :
    List α → Table α → Except GoError (Table α)
  | [], t => .ok t
  | r :: rest, t =>
    match t.Insert pk r with
    | .error err => .error err
    | .ok t' => Table.upsertAll pk rest t'

/-- The struct `IdAddress` of `model/actors/init`; all three fields are tagged `pk`. -/
structure IdAddress where
  ID : String
  Address : String
  StateRoot : String
deriving DecidableEq, Repr

/-- The struct `Message` of `model/messages`; `Cid` alone is tagged `pk`. -/
structure Message where
  Cid : String
  From : String
  To : String
  Value : String
  GasFeeCap : String
  GasPremium : String
  GasLimit : Int
  SizeBytes : Int
  Nonce : Nat
  Method : Nat
  Params : List Nat
deriving DecidableEq, Repr

/-- Primary key of `IdAddress`, from its struct tags. -/
def IdAddress.pk (ia : IdAddress) : String × String × String :=
  (ia.ID, ia.Address, ia.StateRoot)

/-- Primary key of `Message`, from its struct tags. -/
def Message.pk (m : Message) : String := m.Cid

/-- Primary key of the block-header relation. -/
def BlockHeaderRecord.pk (r : BlockHeaderRecord) : Visor.Cid := r.Cid

/-- Primary key of the sync-status relation. -/
def BlockSynced.pk (r : BlockSynced) : Visor.Cid := r.Cid

/-- Primary key of the parent-edge relation. -/
def BlockParent.pk (r : BlockParent) : Cid × Cid := (r.Block, r.Parent)

/-- Primary key of the epoch-entry relation. -/
def DrandEntrie.pk (r : DrandEntrie) : Nat := r.Round

/-- Primary key of the block/epoch-entry association. -/
def DrandBlockEntrie.pk (r : DrandBlockEntrie) : Cid × Nat := (r.Block, r.Round)

/-- The seven relations this code writes, as a transaction `*pg.Tx` sees and changes
them. -/
structure DB where
  idAddresses : Table IdAddress
  messages : Table Message
  blockHeaders : Table BlockHeaderRecord
  blocksSynced : Table BlockSynced
  blockParents : Table BlockParent
  drandEntries : Table DrandEntrie
  drandBlockEntries : Table DrandBlockEntrie

/-- The database handle `*pg.DB`: the committed relations, and what the store answers to
`BEGIN` and to `COMMIT`.  `failBegin` is asked with the committed relations, `failCommit`
with the relations the transaction has reached; `none` means the statement is accepted. -/
structure Store where
  db : DB
  failBegin : DB → Option GoError
  failCommit : DB → Option GoError

/-- The method `db.RunInTransaction(ctx, fn)` of go-pg.  `db.Begin()` comes first and its
error is returned without `fn` being run.  Then `fn` runs on the transaction; when it returns
an error the transaction is rolled back and that error returned.  Otherwise the result of
`tx.Commit()` is returned, and a refused `COMMIT` commits nothing.  The result is the error
returned (`none` for `nil`) and the database after the call. -/
def RunInTransaction (st : Store) (fn : DB → Except GoError DB) : Option GoError × Store :=
  match st.failBegin st.db with
  | some err => (some err, st)
  | none =>
    match fn st.db with
    | .error err => (some err, st)
    | .ok tx =>
      match st.failCommit tx with
      | some err => (some err, st)
      | none => (none, { st with db := tx })

/-- The store refuses no insert into any relation. -/
def DB.faultFree (db : DB) : Prop :=
  db.idAddresses.faultFree ∧ db.messages.faultFree ∧ db.blockHeaders.faultFree ∧
  db.blocksSynced.faultFree ∧ db.blockParents.faultFree ∧ db.drandEntries.faultFree ∧
  db.drandBlockEntries.faultFree

/-- Every relation has at most one row per primary key. -/
def DB.keysUnique (db : DB) : Prop :=
  db.idAddresses.keysUnique IdAddress.pk ∧ db.messages.keysUnique Message.pk ∧
  db.blockHeaders.keysUnique BlockHeaderRecord.pk ∧
  db.blocksSynced.keysUnique BlockSynced.pk ∧ db.blockParents.keysUnique BlockParent.pk ∧
  db.drandEntries.keysUnique DrandEntrie.pk ∧
  db.drandBlockEntries.keysUnique DrandBlockEntrie.pk

/-- The store refuses nothing: no insert, no `BEGIN`, no `COMMIT`. -/
def Store.faultFree (st : Store) : Prop :=
  st.db.faultFree ∧ (∀ d, st.failBegin d = none) ∧ (∀ d, st.failCommit d = none)

/-- The condition under which a second batch `b`, flushed after a first batch `a` into a
relation holding `rows`, leaves what `b` alone would have left: for every record of `a`
whose primary key was not in the relation, the first record with that key in `b` is the
first record with that key in `a`. -/
def retrySafe {α κ : Type} [DecidableEq κ] (pk : α → κ) (rows : Multiset α) (a b : List α) :
    Prop :=
  ∀ x ∈ a, pk x ∉ rows.map pk →
    b.find? (fun r => decide (pk r = pk x)) = a.find? (fun r => decide (pk r = pk x))

/-! ## `model/actors/init/idaddress.go` -/

/-- `(*IdAddress).PersistWithTx`. -/
def IdAddress.PersistWithTx (ia : IdAddress) (tx : DB) : Except GoError DB :=
  match tx.idAddresses.Insert IdAddress.pk ia with
  | .error err => .error err
  | .ok t => .ok { tx with idAddresses := t }

/-- `IdAddressList.PersistWithTx`: the loop over the list, returning the first error. -/
def IdAddressList.PersistWithTx : List IdAddress → DB → Except GoError DB
  | [], tx => .ok tx
  | ia :: rest, tx =>
    match ia.PersistWithTx tx with
    | .error err => .error err
    | .ok tx' => IdAddressList.PersistWithTx rest tx'

/-- `IdAddressList.Persist`. -/
def IdAddressList.Persist (ias : List IdAddress) (db : Store) : Option GoError × Store :=
  RunInTransaction db (fun tx => IdAddressList.PersistWithTx ias tx)

/-- The relations a flush of `ias` is expected to leave on a store that refuses nothing: the
relation of address records with the batch inserted, the other relations as they were. -/
def IdAddressList.flushed (ias : List IdAddress) (db : DB) : DB :=
  { db with
    idAddresses :=
      { db.idAddresses with rows := upsertRows IdAddress.pk ias db.idAddresses.rows } }

/-! ## `model/messages/message.go` -/

/-- `(*Message).PersistWithTx`: an error of the insert is wrapped by `fmt.Errorf`. -/
def Message.PersistWithTx (m : Message) (tx : DB) : Except GoError DB :=
  match tx.messages.Insert Message.pk m with
  | .error err => .error (Errorf "persisting message: " err)
  | .ok t => .ok { tx with messages := t }

/-- `Messages.PersistWithTx`: the loop over the list, returning the first error. -/
def Messages.PersistWithTx : List Message → DB → Except GoError DB
  | [], tx => .ok tx
  | m :: rest, tx =>
    match m.PersistWithTx tx with
    | .error err => .error err
    | .ok tx' => Messages.PersistWithTx rest tx'

/-! ## Writers of `model/blocks` -/

/-- Modelled from the spec: `blocks.BlockHeaders.PersistWithTx` (package `model/blocks`)
upserts every record of the buffer, in order, into the block-header relation of the shared
transaction, and returns the first error unchanged. -/
def BlockHeaders.PersistWithTx (bs : List BlockHeaderRecord) (tx : DB) : Except GoError DB :=
  match Table.upsertAll BlockHeaderRecord.pk bs tx.blockHeaders with
  | .error err => .error err
  | .ok t => .ok { tx with blockHeaders := t }

/-- Modelled from the spec: `blocks.BlocksSynced.PersistWithTx` (package `model/blocks`)
upserts every record of the buffer, in order, into the sync-status relation. -/
def BlocksSynced.PersistWithTx (bs : List BlockSynced) (tx : DB) : Except GoError DB :=
  match Table.upsertAll BlockSynced.pk bs tx.blocksSynced with
  | .error err => .error err
  | .ok t => .ok { tx with blocksSynced := t }

/-- Modelled from the spec: `blocks.BlockParents.PersistWithTx` (package `model/blocks`)
upserts every record of the buffer, in order, into the parent-edge relation. -/
def BlockParents.PersistWithTx (bs : List BlockParent) (tx : DB) : Except GoError DB :=
  match Table.upsertAll BlockParent.pk bs tx.blockParents with
  | .error err => .error err
  | .ok t => .ok { tx with blockParents := t }

/-- Modelled from the spec: `blocks.DrandEntries.PersistWithTx` (package `model/blocks`)
upserts every record of the buffer, in order, into the epoch-entry relation. -/
def DrandEntries.PersistWithTx (bs : List DrandEntrie) (tx : DB) : Except GoError DB :=
  match Table.upsertAll DrandEntrie.pk bs tx.drandEntries with
  | .error err => .error err
  | .ok t => .ok { tx with drandEntries := t }

/-- Modelled from the spec: `blocks.DrandBlockEntries.PersistWithTx` (package
`model/blocks`) upserts every record of the buffer, in order, into the block/epoch-entry
association. -/
def DrandBlockEntries.PersistWithTx (bs : List DrandBlockEntrie) (tx : DB) :
    Except GoError DB :=
  match Table.upsertAll DrandBlockEntrie.pk bs tx.drandBlockEntries with
  | .error err => .error err
  | .ok t => .ok { tx with drandBlockEntries := t }

/-! ## `services/indexer/types.go`: `Persist` -/

/-- The five functions handed to `grp.Go` by `Persist`, named after the buffer each one
writes. -/
inductive Writer where
  | blks
  | synced
  | parents
  | drandEntries
  | drandBlockEntries
deriving DecidableEq, Repr

/-- The writers in the order of the `grp.Go` calls. -/
def Writer.all : List Writer :=
  [.blks, .synced, .parents, .drandEntries, .drandBlockEntries]

/-- The text with which each function wraps the error of its writer. -/
def Writer.label : Writer → String
  | .blks => "persist block headers: "
  | .synced => "persist blocks synced: "
  | .parents => "persist block parents: "
  | .drandEntries => "persist drand entries: "
  | .drandBlockEntries => "persist drand block entries: "

namespace UnindexedBlockData

/-- The `PersistWithTx` call made by each function: the buffer of the accumulator written
through the shared transaction. -/
def writer (u : UnindexedBlockData) (w : Writer) (tx : DB) : Except GoError DB :=
  match w with
  | .blks => BlockHeaders.PersistWithTx u.blks tx
  | .synced => BlocksSynced.PersistWithTx u.synced tx
  | .parents => BlockParents.PersistWithTx u.parents tx
  | .drandEntries => DrandEntries.PersistWithTx u.drandEntries tx
  | .drandBlockEntries => DrandBlockEntries.PersistWithTx u.drandBlockEntries tx

/-- One function handed to `grp.Go`: the error of the writer, if any, is wrapped by
`xerrors.Errorf` and returned; otherwise `nil` is returned. -/
def goFunc (u : UnindexedBlockData) (w : Writer) (tx : DB) : Except GoError DB :=
  match u.writer w tx with
  | .error err => .error (Errorf w.label err)
  | .ok tx' => .ok tx'

/-- The group of functions run to `grp.Wait()`.  The functions write different relations, so
a run of the group is one of its serial orders, `order`, the order in which the functions
return: `Wait` yields the first error returned, or `nil` once all have returned `nil`.
After a first error the group cancels its context and drops whatever the functions still
running return, and the transaction is rolled back, so the run is not followed further. -/
def runGroup (u : UnindexedBlockData) : List Writer → DB → Except GoError DB
  | [], tx => .ok tx
  | w :: rest, tx =>
    match u.goFunc w tx with
    | .error err => .error err
    | .ok tx' => runGroup u rest tx'

/-- The function passed to `db.RunInTransaction` by `Persist`: it returns the error of
`grp.Wait()`, if any, and `nil` otherwise.  `sched` is the order in which the five functions
of the group return in this run. -/
def persistTx (u : UnindexedBlockData) (sched : Equiv.Perm Writer) (tx : DB) :
    Except GoError DB :=
  u.runGroup (Writer.all.map sched) tx

/-- `Persist`. -/
def Persist (u : UnindexedBlockData) (sched : Equiv.Perm Writer) (db : Store) :
    Option GoError × Store :=
  RunInTransaction db (u.persistTx sched)

/-- The condition `retrySafe` on each of the five buffers of a first accumulator `u` and a
second accumulator `v`, over the relations `db`. -/
def retrySafe (db : DB) (u v : UnindexedBlockData) : Prop :=
  Visor.retrySafe BlockHeaderRecord.pk db.blockHeaders.rows u.blks v.blks ∧
  Visor.retrySafe BlockSynced.pk db.blocksSynced.rows u.synced v.synced ∧
  Visor.retrySafe BlockParent.pk db.blockParents.rows u.parents v.parents ∧
  Visor.retrySafe DrandEntrie.pk db.drandEntries.rows u.drandEntries v.drandEntries ∧
  Visor.retrySafe DrandBlockEntrie.pk db.drandBlockEntries.rows u.drandBlockEntries
    v.drandBlockEntries

/-- The database a flush of `u` is expected to commit on a store that refuses nothing: each
of the five relations with its buffer inserted, the other relations as they were. -/
def flushed (u : UnindexedBlockData) (db : DB) : DB :=
  { db with
    blockHeaders :=
      { db.blockHeaders with
        rows := upsertRows BlockHeaderRecord.pk u.blks db.blockHeaders.rows }
    blocksSynced :=
      { db.blocksSynced with rows := upsertRows BlockSynced.pk u.synced db.blocksSynced.rows }
    blockParents :=
      { db.blockParents with rows := upsertRows BlockParent.pk u.parents db.blockParents.rows }
    drandEntries :=
      { db.drandEntries with
        rows := upsertRows DrandEntrie.pk u.drandEntries db.drandEntries.rows }
    drandBlockEntries :=
      { db.drandBlockEntries with
        rows := upsertRows DrandBlockEntrie.pk u.drandBlockEntries db.drandBlockEntries.rows } }

end UnindexedBlockData

/-- A relation without rows whose store refuses no insert. -/
def emptyTable (α : Type) : Table α :=
  { rows := 0, fail := fun _ _ => none }

/-- A relation without rows whose store refuses every insert with the given error. -/
def brokenTable (α : Type) (err : GoError) : Table α :=
  { rows := 0, fail := fun _ _ => some err }

/-- The empty relations over a store that refuses no insert. -/
def emptyDB : DB :=
  { idAddresses := emptyTable _, messages := emptyTable _, blockHeaders := emptyTable _,
    blocksSynced := emptyTable _, blockParents := emptyTable _, drandEntries := emptyTable _,
    drandBlockEntries := emptyTable _ }

/-- The empty database over a store that refuses nothing. -/
def emptyStore : Store :=
  { db := emptyDB, failBegin := fun _ => none, failCommit := fun _ => none }

/-! ### Sample inputs -/

/-- A block without parents or beacon entries. -/
def mkBlock (c : String) (h : Int) : BlockHeader :=
  { cid := ⟨c⟩, Height := h, Parents := [], BeaconEntries := [], ParentStateRoot := ⟨"root"⟩ }

/-- A block with one parent and one beacon entry. -/
def blockA : BlockHeader :=
  { cid := ⟨"bafy-a"⟩, Height := 7, Parents := [⟨"bafy-p"⟩],
    BeaconEntries := [{ Round := 3, Data := [1, 2] }], ParentStateRoot := ⟨"root"⟩ }

/-- A block carrying the beacon entry of round 5 with payload `[1]`. -/
def blockX : BlockHeader :=
  { cid := ⟨"bafy-x"⟩, Height := 7, Parents := [],
    BeaconEntries := [{ Round := 5, Data := [1] }], ParentStateRoot := ⟨"root"⟩ }

/-- Another block carrying a beacon entry of round 5, with payload `[2]`. -/
def blockY : BlockHeader :=
  { cid := ⟨"bafy-y"⟩, Height := 7, Parents := [],
    BeaconEntries := [{ Round := 5, Data := [2] }], ParentStateRoot := ⟨"root"⟩ }

/-- The error of a lost connection. -/
def lostConn : GoError := .new "connection lost"

/-- A message. -/
def sampleMessage : Message :=
  { Cid := "bafy-m", From := "f01", To := "f02", Value := "10", GasFeeCap := "1",
    GasPremium := "1", GasLimit := 1000, SizeBytes := 64, Nonce := 0, Method := 0,
    Params := [] }

/-- A message with the identifier of `sampleMessage` and another value. -/
def otherMessage : Message :=
  { sampleMessage with Value := "20" }

/-- An address record. -/
def sampleIdAddress : IdAddress :=
  { ID := "f0101", Address := "f3abc", StateRoot := "bafy-s" }

/-- A second address record. -/
def otherIdAddress : IdAddress :=
  { ID := "f0102", Address := "f3def", StateRoot := "bafy-s" }

/-- A database whose store refuses every insert of a message or of an address record. -/
def brokenDB : DB :=
  { emptyDB with messages := brokenTable _ lostConn, idAddresses := brokenTable _ lostConn }

/-- Relations whose store refuses every insert of an epoch entry and no other insert. -/
def brokenDrandDB : DB :=
  { emptyDB with drandEntries := brokenTable _ lostConn }

/-- The empty database over a store that refuses every insert of an epoch entry and nothing
else. -/
def brokenDrandStore : Store :=
  { emptyStore with db := brokenDrandDB }

/-- The error of a refused `COMMIT`. -/
def commitRefused : GoError := .new "could not serialize access"

/-- The empty database over a store that accepts every insert and refuses every `COMMIT`. -/
def commitRefusingStore : Store :=
  { emptyStore with failCommit := fun _ => some commitRefused }


/-! ## Lemmas on the accumulator -/

namespace UnindexedBlockData

theorem highest_Add (u : UnindexedBlockData) (bh : BlockHeader) :
    (u.Add bh).highest = stepHighest u.highest bh := rfl

theorem addAll_nil (u : UnindexedBlockData) : u.addAll [] = u := rfl

theorem addAll_cons (u : UnindexedBlockData) (bh : BlockHeader) (bhs : List BlockHeader) :
    u.addAll (bh :: bhs) = (u.Add bh).addAll bhs := rfl

theorem highest_addAll (u : UnindexedBlockData) (bhs : List BlockHeader) :
    (u.addAll bhs).highest = bhs.foldl stepHighest u.highest := by
  induction bhs generalizing u with
  | nil => rfl
  | cons bh t ih => rw [addAll_cons, ih, highest_Add, List.foldl_cons]

/-- Starting from a non-nil pointer `h0`, the pointer after a run of `Add`s is either still
`h0`, nothing in the run being higher, or the first block of the run that is strictly higher
than `h0` and than everything before it, nothing after it being higher. -/
theorem foldl_stepHighest_some (l : List BlockHeader) (h0 : BlockHeader) :
    (l.foldl stepHighest (some h0) = some h0 ∧ ∀ x ∈ l, x.Height ≤ h0.Height) ∨
    ∃ pre b post, l = pre ++ b :: post ∧ l.foldl stepHighest (some h0) = some b ∧
      h0.Height < b.Height ∧ (∀ x ∈ pre, x.Height < b.Height) ∧
      (∀ x ∈ post, x.Height ≤ b.Height) := by
  induction l generalizing h0 with
  | nil => exact Or.inl ⟨rfl, by simp⟩
  | cons a t ih =>
    by_cases hlt : h0.Height < a.Height
    · have hstep : stepHighest (some h0) a = some a := by simp [stepHighest, hlt]
      rw [List.foldl_cons, hstep]
      rcases ih a with ⟨hr, hall⟩ | ⟨pre, b, post, hl, hr, hab, hpre, hpost⟩
      · exact Or.inr ⟨[], a, t, rfl, hr, hlt, by simp, hall⟩
      · refine Or.inr ⟨a :: pre, b, post, by simp [hl], hr, lt_trans hlt hab, ?_, hpost⟩
        intro x hx
        rcases List.mem_cons.mp hx with rfl | hx
        · exact hab
        · exact hpre x hx
    · have hstep : stepHighest (some h0) a = some h0 := by simp [stepHighest, hlt]
      rw [List.foldl_cons, hstep]
      rcases ih h0 with ⟨hr, hall⟩ | ⟨pre, b, post, hl, hr, hab, hpre, hpost⟩
      · refine Or.inl ⟨hr, ?_⟩
        intro x hx
        rcases List.mem_cons.mp hx with rfl | hx
        · exact not_lt.mp hlt
        · exact hall x hx
      · refine Or.inr ⟨a :: pre, b, post, by simp [hl], hr, hab, ?_, hpost⟩
        intro x hx
        rcases List.mem_cons.mp hx with rfl | hx
        · exact lt_of_le_of_lt (not_lt.mp hlt) hab
        · exact hpre x hx

/-- On a fresh accumulator, the pointer after a non-empty run of `Add`s is the first block
of the run whose height is maximal. -/
theorem highest_addAll_fresh (bhs : List BlockHeader) (hne : bhs ≠ []) :
    ∃ pre b post, bhs = pre ++ b :: post ∧
      (NewUnindexedBlockData.addAll bhs).highest = some b ∧
      (∀ x ∈ pre, x.Height < b.Height) ∧ (∀ x ∈ post, x.Height ≤ b.Height) := by
  cases bhs with
  | nil => exact absurd rfl hne
  | cons b0 t =>
    rw [highest_addAll]
    have h0 : (b0 :: t).foldl stepHighest NewUnindexedBlockData.highest
        = t.foldl stepHighest (some b0) := rfl
    rw [h0]
    rcases foldl_stepHighest_some t b0 with ⟨hr, hall⟩ | ⟨pre, b, post, hl, hr, hab, hpre, hpost⟩
    · exact ⟨[], b0, t, rfl, hr, by simp, hall⟩
    · refine ⟨b0 :: pre, b, post, by simp [hl], hr, ?_, hpost⟩
      intro x hx
      rcases List.mem_cons.mp hx with rfl | hx
      · exact hab
      · exact hpre x hx

theorem has_addAll (u : UnindexedBlockData) (bhs : List BlockHeader) :
    (u.addAll bhs).has = u.has ∪ (bhs.map BlockHeader.Cid).toFinset := by
  induction bhs generalizing u with
  | nil => simp [addAll_nil]
  | cons bh t ih =>
    rw [addAll_cons, ih]
    ext c
    simp [Add]

theorem blks_addAll (u : UnindexedBlockData) (bhs : List BlockHeader) :
    (u.addAll bhs).blks = u.blks ++ bhs.map NewBlockHeader := by
  induction bhs generalizing u with
  | nil => simp [addAll_nil]
  | cons bh t ih => rw [addAll_cons, ih]; simp [Add]

theorem synced_addAll (u : UnindexedBlockData) (bhs : List BlockHeader) :
    (u.addAll bhs).synced = u.synced ++ bhs.map NewBlockSynced := by
  induction bhs generalizing u with
  | nil => simp [addAll_nil]
  | cons bh t ih => rw [addAll_cons, ih]; simp [Add]

theorem parents_addAll (u : UnindexedBlockData) (bhs : List BlockHeader) :
    (u.addAll bhs).parents = u.parents ++ (bhs.map NewBlockParents).flatten := by
  induction bhs generalizing u with
  | nil => simp [addAll_nil]
  | cons bh t ih => rw [addAll_cons, ih]; simp [Add]

theorem drandEntries_addAll (u : UnindexedBlockData) (bhs : List BlockHeader) :
    (u.addAll bhs).drandEntries = u.drandEntries ++ (bhs.map NewDrandEnties).flatten := by
  induction bhs generalizing u with
  | nil => simp [addAll_nil]
  | cons bh t ih => rw [addAll_cons, ih]; simp [Add]

theorem drandBlockEntries_addAll (u : UnindexedBlockData) (bhs : List BlockHeader) :
    (u.addAll bhs).drandBlockEntries
      = u.drandBlockEntries ++ (bhs.map NewDrandBlockEntries).flatten := by
  induction bhs generalizing u with
  | nil => simp [addAll_nil]
  | cons bh t ih => rw [addAll_cons, ih]; simp [Add]

end UnindexedBlockData

/-! ## Properties of the accumulator -/

/-- C1, as stated, fails: adding `blockA` a second time, when its identifier is already in
the membership set, appends to every one of the five buffers again. -/
theorem C1_readd_changes_buffers :
    blockA.Cid ∈ (NewUnindexedBlockData.Add blockA).has ∧
    ((NewUnindexedBlockData.Add blockA).Add blockA).blks
      ≠ (NewUnindexedBlockData.Add blockA).blks ∧
    ((NewUnindexedBlockData.Add blockA).Add blockA).synced
      ≠ (NewUnindexedBlockData.Add blockA).synced ∧
    ((NewUnindexedBlockData.Add blockA).Add blockA).parents
      ≠ (NewUnindexedBlockData.Add blockA).parents ∧
    ((NewUnindexedBlockData.Add blockA).Add blockA).drandEntries
      ≠ (NewUnindexedBlockData.Add blockA).drandEntries ∧
    ((NewUnindexedBlockData.Add blockA).Add blockA).drandBlockEntries
      ≠ (NewUnindexedBlockData.Add blockA).drandBlockEntries ∧
    ((NewUnindexedBlockData.Add blockA).Add blockA).blks
      = [NewBlockHeader blockA, NewBlockHeader blockA] := by
  decide

/-- C1, amended: when the identifier of `bh` is already in the membership set, `Add bh`
leaves the membership set and `Size` unchanged, and each of the five buffers after the call
is the buffer before the call followed by the records derived from `bh` (one header record,
one sync record, the parent edges, the epoch entries and the block/epoch associations). -/
theorem C1_readd_keeps_set_appends_records (u : UnindexedBlockData) (bh : BlockHeader)
    (hmem : bh.Cid ∈ u.has) :
    (u.Add bh).has = u.has ∧ (u.Add bh).Size = u.Size ∧
    (u.Add bh).blks = u.blks ++ [NewBlockHeader bh] ∧
    (u.Add bh).synced = u.synced ++ [NewBlockSynced bh] ∧
    (u.Add bh).parents = u.parents ++ NewBlockParents bh ∧
    (u.Add bh).drandEntries = u.drandEntries ++ NewDrandEnties bh ∧
    (u.Add bh).drandBlockEntries = u.drandBlockEntries ++ NewDrandBlockEntries bh ∧
    (u.Add bh).blks.length = u.blks.length + 1 ∧
    (u.Add bh).synced.length = u.synced.length + 1 := by
  have hset : (u.Add bh).has = u.has := Finset.insert_eq_of_mem hmem
  refine ⟨hset, ?_, rfl, rfl, rfl, rfl, rfl, ?_, ?_⟩
  · simp [UnindexedBlockData.Size, hset]
  · simp [UnindexedBlockData.Add]
  · simp [UnindexedBlockData.Add]

/-- Witness of C1 (amended) at the accumulator that already holds `blockA`. -/
theorem C1_readd_keeps_set_appends_records_witness :
    blockA.Cid ∈ (NewUnindexedBlockData.Add blockA).has ∧
    ((NewUnindexedBlockData.Add blockA).Add blockA).Size = 1 ∧
    ((NewUnindexedBlockData.Add blockA).Add blockA).blks.length = 2 :=
  have hmem : blockA.Cid ∈ (NewUnindexedBlockData.Add blockA).has := by decide
  have h := C1_readd_keeps_set_appends_records (NewUnindexedBlockData.Add blockA) blockA hmem
  ⟨hmem, h.2.1.trans (by decide), h.2.2.2.2.2.2.2.1.trans (by decide)⟩

/-- C2, idempotent `Add`: after `Add bh`, `Has bh` is true, and a second `Add bh` leaves
`Size` at the value it had after the first. -/
theorem C2_add_idempotent_on_size (u : UnindexedBlockData) (bh : BlockHeader) :
    (u.Add bh).Has bh = true ∧ ((u.Add bh).Add bh).Size = (u.Add bh).Size := by
  constructor
  · simp [UnindexedBlockData.Has, UnindexedBlockData.Add]
  · simp [UnindexedBlockData.Size, UnindexedBlockData.Add]

/-- C3, `Highest` correctness: after adding a non-empty sequence of blocks to a fresh
accumulator, `Highest` returns the identifier and height of one of the added blocks, and
that height is the maximum over all added blocks; in particular three blocks of heights
10, 15 and 12, added in any order, give height 15. -/
theorem C3_highest_is_maximum (bhs : List BlockHeader) :
    (bhs ≠ [] → ∃ b ∈ bhs,
      (NewUnindexedBlockData.addAll bhs).Highest = .ok (b.Cid, b.Height) ∧
      ∀ x ∈ bhs, x.Height ≤ b.Height) ∧
    (∀ b10 b15 b12 : BlockHeader, b10.Height = 10 → b15.Height = 15 → b12.Height = 12 →
      bhs.Perm [b10, b15, b12] →
      ∃ c, (NewUnindexedBlockData.addAll bhs).Highest = .ok (c, 15)) := by
  have key : bhs ≠ [] → ∃ b ∈ bhs,
      (NewUnindexedBlockData.addAll bhs).Highest = .ok (b.Cid, b.Height) ∧
      ∀ x ∈ bhs, x.Height ≤ b.Height := by
    intro hne
    obtain ⟨pre, b, post, hl, hr, hpre, hpost⟩ :=
      UnindexedBlockData.highest_addAll_fresh bhs hne
    refine ⟨b, by simp [hl], by simp [UnindexedBlockData.Highest, hr], ?_⟩
    intro x hx
    rw [hl] at hx
    rcases List.mem_append.mp hx with hx | hx
    · exact le_of_lt (hpre x hx)
    · rcases List.mem_cons.mp hx with rfl | hx
      · exact le_refl _
      · exact hpost x hx
  refine ⟨key, ?_⟩
  intro b10 b15 b12 h10 h15 h12 hperm
  have hne : bhs ≠ [] := by
    intro h
    rw [h] at hperm
    simpa using hperm.length_eq
  obtain ⟨b, hb, hres, hmax⟩ := key hne
  have hb15 : b15 ∈ bhs := hperm.mem_iff.mpr (by simp)
  have hge : (15 : Int) ≤ b.Height := h15 ▸ hmax b15 hb15
  have hb3 : b ∈ [b10, b15, b12] := hperm.mem_iff.mp hb
  have hle : b.Height ≤ 15 := by
    simp only [List.mem_cons, List.mem_singleton, List.not_mem_nil, or_false] at hb3
    rcases hb3 with rfl | rfl | rfl <;> omega
  refine ⟨b.Cid, ?_⟩
  rw [hres, le_antisymm hle hge]

/-- Witness of C3 at the order 10, 15, 12 (the other five orders are instances of the
second part of the theorem). -/
theorem C3_highest_is_maximum_witness :
    [mkBlock "a" 10, mkBlock "b" 15, mkBlock "c" 12] ≠ [] ∧
    ∃ b ∈ [mkBlock "a" 10, mkBlock "b" 15, mkBlock "c" 12],
      (NewUnindexedBlockData.addAll [mkBlock "a" 10, mkBlock "b" 15, mkBlock "c" 12]).Highest
        = .ok (b.Cid, b.Height) ∧
      ∀ x ∈ [mkBlock "a" 10, mkBlock "b" 15, mkBlock "c" 12], x.Height ≤ b.Height :=
  ⟨by decide,
    (C3_highest_is_maximum [mkBlock "a" 10, mkBlock "b" 15, mkBlock "c" 12]).1 (by decide)⟩

/-- C4, tie-break stability: `Add` moves a non-nil `highest` pointer only to a block that
is strictly higher; adding a block of the same height as the current highest leaves
`Highest` unchanged; and after any non-empty sequence of `Add`s on a fresh accumulator,
`Highest` returns the first-added block among those of maximal height (everything added
before it is strictly lower, nothing added after it is higher). -/
theorem C4_tie_break_keeps_first_seen (u : UnindexedBlockData) (h bh : BlockHeader)
    (bhs : List BlockHeader) :
    (u.highest = some h →
      (u.Add bh).highest = if h.Height < bh.Height then some bh else some h) ∧
    (u.highest = some h → bh.Height = h.Height → (u.Add bh).Highest = u.Highest) ∧
    (bhs ≠ [] → ∃ pre b post, bhs = pre ++ b :: post ∧
      (∀ x ∈ pre, x.Height < b.Height) ∧ (∀ x ∈ post, x.Height ≤ b.Height) ∧
      (NewUnindexedBlockData.addAll bhs).Highest = .ok (b.Cid, b.Height)) := by
  refine ⟨?_, ?_, ?_⟩
  · intro hu
    simp [UnindexedBlockData.Add, hu]
  · intro hu heq
    simp [UnindexedBlockData.Highest, UnindexedBlockData.Add, hu, heq]
  · intro hne
    obtain ⟨pre, b, post, hl, hr, hpre, hpost⟩ :=
      UnindexedBlockData.highest_addAll_fresh bhs hne
    exact ⟨pre, b, post, hl, hpre, hpost, by simp [UnindexedBlockData.Highest, hr]⟩

/-- Witness of C4: two distinct blocks of height 15; the one added first stays the
highest, also after a lower block follows. -/
theorem C4_tie_break_keeps_first_seen_witness :
    (NewUnindexedBlockData.Add (mkBlock "a" 15)).highest = some (mkBlock "a" 15) ∧
    (mkBlock "b" 15).Height = (mkBlock "a" 15).Height ∧
    ((NewUnindexedBlockData.Add (mkBlock "a" 15)).Add (mkBlock "b" 15)).Highest
      = .ok (⟨"a"⟩, 15) ∧
    ∃ pre b post, [mkBlock "a" 15, mkBlock "b" 15, mkBlock "c" 12] = pre ++ b :: post ∧
      (∀ x ∈ pre, x.Height < b.Height) ∧ (∀ x ∈ post, x.Height ≤ b.Height) ∧
      (NewUnindexedBlockData.addAll [mkBlock "a" 15, mkBlock "b" 15, mkBlock "c" 12]).Highest
        = .ok (b.Cid, b.Height) :=
  have h := C4_tie_break_keeps_first_seen (NewUnindexedBlockData.Add (mkBlock "a" 15))
    (mkBlock "a" 15) (mkBlock "b" 15) [mkBlock "a" 15, mkBlock "b" 15, mkBlock "c" 12]
  ⟨by decide, by decide, (h.2.1 (by decide) (by decide)).trans (by decide),
    h.2.2 (by decide)⟩

/-- C5: on the accumulator returned by `NewUnindexedBlockData` (of size 0) `Highest` ends
in a nil-pointer panic and returns no pair at all, zero-valued or other; after any `Add`,
`Highest` returns a value. -/
theorem C5_highest_panics_on_empty (u : UnindexedBlockData) (bh : BlockHeader) :
    NewUnindexedBlockData.Size = 0 ∧
    NewUnindexedBlockData.Highest = .error .nilPointerDereference ∧
    (∀ v, NewUnindexedBlockData.Highest ≠ .ok v) ∧
    ∃ v, (u.Add bh).Highest = .ok v := by
  refine ⟨by decide, rfl, ?_, ?_⟩
  · intro v hv
    have : (Except.error GoPanic.nilPointerDereference : Except GoPanic (Cid × Int))
        = .ok v := hv
    cases this
  · cases hu : u.highest with
    | none => exact ⟨(bh.Cid, bh.Height), by simp [UnindexedBlockData.Highest, UnindexedBlockData.Add, hu]⟩
    | some h =>
      by_cases hlt : h.Height < bh.Height
      · exact ⟨(bh.Cid, bh.Height),
          by simp [UnindexedBlockData.Highest, UnindexedBlockData.Add, hu, hlt]⟩
      · exact ⟨(h.Cid, h.Height),
          by simp [UnindexedBlockData.Highest, UnindexedBlockData.Add, hu, hlt]⟩

/-- A buffer fed by a derivation that yields nothing for every block of the run stays as it
was. -/
theorem flatten_map_eq_nil {β : Type} (f : BlockHeader → List β) (l : List BlockHeader)
    (h : ∀ b ∈ l, f b = []) : (l.map f).flatten = [] := by
  induction l with
  | nil => rfl
  | cons a t ih =>
    have ha : f a = [] := h a (List.mem_cons_self a t)
    have ht : (t.map f).flatten = [] := ih (fun b hb => h b (List.mem_cons_of_mem a hb))
    simp [ha, ht]

/-- C6, record fan-out count: after adding to a fresh accumulator `N` blocks with pairwise
distinct identifiers, no declared parents and no beacon entries, `blks` and `synced` hold
exactly `N` records each, `parents`, `drandEntries` and `drandBlockEntries` are empty, and
`Size` is `N`. -/
theorem C6_fan_out_count (bhs : List BlockHeader)
    (hdistinct : (bhs.map BlockHeader.Cid).Nodup)
    (hplain : ∀ b ∈ bhs, b.Parents = [] ∧ b.BeaconEntries = []) :
    (NewUnindexedBlockData.addAll bhs).blks.length = bhs.length ∧
    (NewUnindexedBlockData.addAll bhs).synced.length = bhs.length ∧
    (NewUnindexedBlockData.addAll bhs).parents = [] ∧
    (NewUnindexedBlockData.addAll bhs).drandEntries = [] ∧
    (NewUnindexedBlockData.addAll bhs).drandBlockEntries = [] ∧
    (NewUnindexedBlockData.addAll bhs).Size = bhs.length := by
  refine ⟨?_, ?_, ?_, ?_, ?_, ?_⟩
  · rw [UnindexedBlockData.blks_addAll]; simp [NewUnindexedBlockData]
  · rw [UnindexedBlockData.synced_addAll]; simp [NewUnindexedBlockData]
  · rw [UnindexedBlockData.parents_addAll,
      flatten_map_eq_nil NewBlockParents bhs
        (fun b hb => by simp [NewBlockParents, (hplain b hb).1])]
    rfl
  · rw [UnindexedBlockData.drandEntries_addAll,
      flatten_map_eq_nil NewDrandEnties bhs
        (fun b hb => by simp [NewDrandEnties, (hplain b hb).2])]
    rfl
  · rw [UnindexedBlockData.drandBlockEntries_addAll,
      flatten_map_eq_nil NewDrandBlockEntries bhs
        (fun b hb => by simp [NewDrandBlockEntries, (hplain b hb).2])]
    rfl
  · rw [UnindexedBlockData.Size, UnindexedBlockData.has_addAll]
    simp [NewUnindexedBlockData, List.toFinset_card_of_nodup hdistinct]

/-- Witness of C6 with three blocks. -/
theorem C6_fan_out_count_witness :
    ([mkBlock "a" 10, mkBlock "b" 15, mkBlock "c" 12].map BlockHeader.Cid).Nodup ∧
    (∀ b ∈ [mkBlock "a" 10, mkBlock "b" 15, mkBlock "c" 12],
      b.Parents = [] ∧ b.BeaconEntries = []) ∧
    (NewUnindexedBlockData.addAll [mkBlock "a" 10, mkBlock "b" 15, mkBlock "c" 12]).blks.length
      = 3 ∧
    (NewUnindexedBlockData.addAll [mkBlock "a" 10, mkBlock "b" 15, mkBlock "c" 12]).parents
      = [] ∧
    (NewUnindexedBlockData.addAll [mkBlock "a" 10, mkBlock "b" 15, mkBlock "c" 12]).Size = 3 :=
  have h := C6_fan_out_count [mkBlock "a" 10, mkBlock "b" 15, mkBlock "c" 12]
    (by decide) (by decide)
  ⟨by decide, by decide, h.1, h.2.2.1, h.2.2.2.2.2⟩

/-- C10, buffer order: after any sequence of `Add`s on a fresh accumulator each of the five
buffers is the concatenation, in call order, of the records derived from each added block;
and a single `Add` on any accumulator only appends, every buffer before the call being a
prefix of the buffer after it.  (`Has`, `Highest` and `Size` assign to no field in the
source, which is why they carry no accumulator in their result here.) -/
theorem C10_buffers_in_add_order (u : UnindexedBlockData) (bh : BlockHeader)
    (bhs : List BlockHeader) :
    ((NewUnindexedBlockData.addAll bhs).blks = bhs.map NewBlockHeader ∧
     (NewUnindexedBlockData.addAll bhs).synced = bhs.map NewBlockSynced ∧
     (NewUnindexedBlockData.addAll bhs).parents = (bhs.map NewBlockParents).flatten ∧
     (NewUnindexedBlockData.addAll bhs).drandEntries = (bhs.map NewDrandEnties).flatten ∧
     (NewUnindexedBlockData.addAll bhs).drandBlockEntries
       = (bhs.map NewDrandBlockEntries).flatten) ∧
    (u.blks <+: (u.Add bh).blks ∧ u.synced <+: (u.Add bh).synced ∧
     u.parents <+: (u.Add bh).parents ∧ u.drandEntries <+: (u.Add bh).drandEntries ∧
     u.drandBlockEntries <+: (u.Add bh).drandBlockEntries) := by
  refine ⟨⟨?_, ?_, ?_, ?_, ?_⟩, ?_⟩
  · rw [UnindexedBlockData.blks_addAll]; rfl
  · rw [UnindexedBlockData.synced_addAll]; rfl
  · rw [UnindexedBlockData.parents_addAll]; rfl
  · rw [UnindexedBlockData.drandEntries_addAll]; rfl
  · rw [UnindexedBlockData.drandBlockEntries_addAll]; rfl
  · exact ⟨List.prefix_append _ _, List.prefix_append _ _, List.prefix_append _ _,
      List.prefix_append _ _, List.prefix_append _ _⟩

/-! ## Properties of the single-record upsert -/

/-- C8, as stated, fails for `Message.PersistWithTx`: when the insert fails with the error
`connection lost`, the caller does not receive that error but a new one,
`persisting message: connection lost`, which wraps it. -/
theorem C8_message_error_is_wrapped :
    brokenDB.messages.Insert Message.pk sampleMessage = .error lostConn ∧
    sampleMessage.PersistWithTx brokenDB ≠ .error lostConn ∧
    sampleMessage.PersistWithTx brokenDB
      = .error (.wrap "persisting message: connection lost" (.new "connection lost")) := by
  have h : sampleMessage.PersistWithTx brokenDB
      = .error (.wrap "persisting message: connection lost" (.new "connection lost")) := by
    rfl
  refine ⟨rfl, ?_, h⟩
  rw [h]
  intro hc
  cases hc

/-- C8, amended: when the insert fails with `e`, `IdAddress.PersistWithTx` returns exactly
`e`, while `Message.PersistWithTx` returns the error made by `fmt.Errorf` from the text
`persisting message: ` and `e`, from which `e` is recovered by `Unwrap`; and each of the two
returns success exactly when its insert reports no error. -/
theorem C8_upsert_error_propagation (tx : DB) (ia : IdAddress) (m : Message) (e : GoError) :
    (tx.idAddresses.Insert IdAddress.pk ia = .error e → ia.PersistWithTx tx = .error e) ∧
    (tx.messages.Insert Message.pk m = .error e →
      m.PersistWithTx tx = .error (Errorf "persisting message: " e) ∧
      (Errorf "persisting message: " e).Unwrap = some e) ∧
    ((∃ tx', ia.PersistWithTx tx = .ok tx') ↔
      ∃ t, tx.idAddresses.Insert IdAddress.pk ia = .ok t) ∧
    ((∃ tx', m.PersistWithTx tx = .ok tx') ↔
      ∃ t, tx.messages.Insert Message.pk m = .ok t) := by
  refine ⟨?_, ?_, ?_, ?_⟩
  · intro h
    simp [IdAddress.PersistWithTx, h]
  · intro h
    exact ⟨by simp [Message.PersistWithTx, h], rfl⟩
  · unfold IdAddress.PersistWithTx
    cases tx.idAddresses.Insert IdAddress.pk ia with
    | error err => simp
    | ok t => simp
  · unfold Message.PersistWithTx
    cases tx.messages.Insert Message.pk m with
    | error err => simp
    | ok t => simp

/-- Witness of C8 (amended) on a store that refuses the insert with `connection lost`. -/
theorem C8_upsert_error_propagation_witness :
    brokenDB.idAddresses.Insert IdAddress.pk sampleIdAddress = .error lostConn ∧
    sampleIdAddress.PersistWithTx brokenDB = .error lostConn ∧
    brokenDB.messages.Insert Message.pk sampleMessage = .error lostConn ∧
    sampleMessage.PersistWithTx brokenDB = .error (Errorf "persisting message: " lostConn) :=
  have h := C8_upsert_error_propagation brokenDB sampleIdAddress sampleMessage lostConn
  ⟨rfl, h.1 rfl, rfl, (h.2.1 rfl).1⟩

/-! ## Lemmas on one relation -/

section Relation

variable {α κ : Type} [DecidableEq κ] (pk : α → κ)

theorem upsertRows_nil (rows : Multiset α) : upsertRows pk [] rows = rows := rfl

theorem upsertRows_cons (r : α) (l : List α) (rows : Multiset α) :
    upsertRows pk (r :: l) rows = upsertRows pk l (insertRow pk r rows) := rfl

theorem upsertRows_append (l₁ l₂ : List α) (rows : Multiset α) :
    upsertRows pk (l₁ ++ l₂) rows = upsertRows pk l₂ (upsertRows pk l₁ rows) := by
  simp [upsertRows, List.foldl_append]

/-- On a store that refuses nothing, inserting a batch succeeds and leaves `upsertRows`. -/
theorem upsertAll_faultFree (l : List α) (t : Table α) (hff : t.faultFree) :
    Table.upsertAll pk l t = .ok { t with rows := upsertRows pk l t.rows } := by
  induction l generalizing t with
  | nil => rfl
  | cons r rest ih =>
    have hins : t.Insert pk r = .ok { t with rows := insertRow pk r t.rows } := by
      simp [Table.Insert, hff t.rows r]
    have hff' : Table.faultFree { t with rows := insertRow pk r t.rows } := hff
    simp only [Table.upsertAll, hins, ih _ hff', upsertRows_cons]

theorem le_insertRow (r : α) (rows : Multiset α) : rows ≤ insertRow pk r rows := by
  unfold insertRow
  split
  · exact le_refl _
  · exact Multiset.le_cons_self _ _

/-- A flush only adds rows: the rows present before are present after, as they were. -/
theorem le_upsertRows (l : List α) (rows : Multiset α) : rows ≤ upsertRows pk l rows := by
  induction l generalizing rows with
  | nil => exact le_refl _
  | cons r rest ih => exact le_trans (le_insertRow pk r rows) (ih _)

theorem key_mem_insertRow (r : α) (rows : Multiset α) :
    pk r ∈ (insertRow pk r rows).map pk := by
  unfold insertRow
  split
  · assumption
  · simp

theorem insertRow_keys_nodup (r : α) (rows : Multiset α) (h : (rows.map pk).Nodup) :
    ((insertRow pk r rows).map pk).Nodup := by
  unfold insertRow
  split
  · exact h
  · rename_i hnot
    rw [Multiset.map_cons]
    exact Multiset.nodup_cons.mpr ⟨hnot, h⟩

/-- A flush keeps the primary key unique. -/
theorem upsertRows_keys_nodup (l : List α) (rows : Multiset α) (h : (rows.map pk).Nodup) :
    ((upsertRows pk l rows).map pk).Nodup := by
  induction l generalizing rows with
  | nil => exact h
  | cons r rest ih => exact ih _ (insertRow_keys_nodup pk r rows h)

/-- After a flush the key of every row of the batch is present. -/
theorem key_mem_upsertRows (l : List α) (rows : Multiset α) (r : α) (hr : r ∈ l) :
    pk r ∈ (upsertRows pk l rows).map pk := by
  induction l generalizing rows with
  | nil => cases hr
  | cons a rest ih =>
    rw [upsertRows_cons]
    rcases List.mem_cons.mp hr with rfl | hr
    · exact Multiset.mem_of_le (Multiset.map_le_map (le_upsertRows pk rest _))
        (key_mem_insertRow pk r rows)
    · exact ih _ hr

/-- Inserting a batch whose keys are all present changes nothing. -/
theorem upsertRows_eq_self (l : List α) (rows : Multiset α)
    (h : ∀ r ∈ l, pk r ∈ rows.map pk) : upsertRows pk l rows = rows := by
  induction l with
  | nil => rfl
  | cons a rest ih =>
    have ha : insertRow pk a rows = rows := by
      simp [insertRow, h a (List.mem_cons_self a rest)]
    rw [upsertRows_cons, ha]
    exact ih (fun r hr => h r (List.mem_cons_of_mem a hr))

/-- Flushing a batch and then the same batch followed by more rows leaves what flushing the
longer batch once leaves. -/
theorem upsertRows_retry_grown (l more : List α) (rows : Multiset α) :
    upsertRows pk (l ++ more) (upsertRows pk l rows) = upsertRows pk (l ++ more) rows := by
  rw [upsertRows_append, upsertRows_append,
    upsertRows_eq_self pk l (upsertRows pk l rows) (fun r hr => key_mem_upsertRows pk l rows r hr)]

theorem mem_insertRow (hinj : Function.Injective pk) (r x : α) (rows : Multiset α) :
    x ∈ insertRow pk r rows ↔ x = r ∨ x ∈ rows := by
  unfold insertRow
  split
  · rename_i hmem
    obtain ⟨y, hy, hyr⟩ := Multiset.mem_map.mp hmem
    have : y = r := hinj hyr
    subst this
    constructor
    · exact Or.inr
    · rintro (rfl | h)
      · exact hy
      · exact h
  · exact Multiset.mem_cons

/-- When the primary key is the whole row, the rows after a flush are the rows before and the
rows of the batch. -/
theorem mem_upsertRows (hinj : Function.Injective pk) (l : List α) (x : α)
    (rows : Multiset α) : x ∈ upsertRows pk l rows ↔ x ∈ rows ∨ x ∈ l := by
  induction l generalizing rows with
  | nil => simp [upsertRows_nil]
  | cons a rest ih =>
    rw [upsertRows_cons, ih, mem_insertRow pk hinj, List.mem_cons]
    tauto

/-- When the primary key is the whole row, flushing a batch and then a superset of it leaves
what flushing the superset once leaves. -/
theorem upsertRows_retry_superset (hinj : Function.Injective pk) (a b : List α)
    (rows : Multiset α) (hnd : (rows.map pk).Nodup) (hsup : ∀ x ∈ a, x ∈ b) :
    upsertRows pk b (upsertRows pk a rows) = upsertRows pk b rows := by
  have h1 : (upsertRows pk b (upsertRows pk a rows)).Nodup :=
    Multiset.Nodup.of_map pk
      (upsertRows_keys_nodup pk b _ (upsertRows_keys_nodup pk a rows hnd))
  have h2 : (upsertRows pk b rows).Nodup :=
    Multiset.Nodup.of_map pk (upsertRows_keys_nodup pk b rows hnd)
  refine (Multiset.Nodup.ext h1 h2).mpr ?_
  intro x
  rw [mem_upsertRows pk hinj, mem_upsertRows pk hinj, mem_upsertRows pk hinj]
  constructor
  · rintro ((h | h) | h)
    · exact Or.inl h
    · exact Or.inr (hsup x h)
    · exact Or.inr h
  · rintro (h | h)
    · exact Or.inl (Or.inl h)
    · exact Or.inr h

end Relation

/-! ## Lemmas on the group of writers -/

namespace UnindexedBlockData

/-- A writer that succeeds leaves alone what any other writer reads: the outcome of another
writer is the same before and after it, as far as errors go. -/
theorem writer_frame (u : UnindexedBlockData) (w w' : Writer) (tx tx' : DB) (e : GoError)
    (hne : w ≠ w') (hok : u.writer w' tx = .ok tx') :
    u.writer w tx' = .error e ↔ u.writer w tx = .error e := by
  cases w <;> cases w' <;> first
    | exact absurd rfl hne
    | (simp only [writer, BlockHeaders.PersistWithTx, BlocksSynced.PersistWithTx,
        BlockParents.PersistWithTx, DrandEntries.PersistWithTx,
        DrandBlockEntries.PersistWithTx] at hok ⊢
       split at hok
       · cases hok
       · cases hok
         dsimp only
         split <;> simp)

theorem goFunc_ok_iff (u : UnindexedBlockData) (w : Writer) (tx tx' : DB) :
    u.goFunc w tx = .ok tx' ↔ u.writer w tx = .ok tx' := by
  unfold goFunc
  cases u.writer w tx with
  | error err => simp
  | ok t => simp

theorem goFunc_error_iff (u : UnindexedBlockData) (w : Writer) (tx : DB) (err : GoError) :
    u.goFunc w tx = .error err ↔ ∃ e, u.writer w tx = .error e ∧ err = Errorf w.label e := by
  unfold goFunc
  cases u.writer w tx with
  | error e0 =>
    constructor
    · intro h
      cases h
      exact ⟨e0, rfl, rfl⟩
    · rintro ⟨e, he, rfl⟩
      cases he
      rfl
  | ok t => simp

/-- When some function of the group fails, the group returns the wrapped error of a writer
that fails. -/
theorem runGroup_error (u : UnindexedBlockData) (order : List Writer) (tx : DB)
    (hnd : order.Nodup) (hfail : ∃ w ∈ order, ∃ e, u.writer w tx = .error e) :
    ∃ w ∈ order, ∃ e, u.writer w tx = .error e ∧
      u.runGroup order tx = .error (Errorf w.label e) := by
  induction order generalizing tx with
  | nil =>
    obtain ⟨w, hw, _⟩ := hfail
    cases hw
  | cons a rest ih =>
    have hnd' := List.nodup_cons.mp hnd
    cases ha : u.writer a tx with
    | error ea =>
      refine ⟨a, List.mem_cons_self a rest, ea, ha, ?_⟩
      simp [runGroup, goFunc, ha]
    | ok tx1 =>
      obtain ⟨w, hw, e, he⟩ := hfail
      have hwa : w ≠ a := by
        rintro rfl
        rw [ha] at he
        cases he
      have hwrest : w ∈ rest := by
        rcases List.mem_cons.mp hw with h | h
        · exact absurd h hwa
        · exact h
      have he1 : u.writer w tx1 = .error e := (writer_frame u w a tx tx1 e hwa ha).mpr he
      obtain ⟨w2, hw2, e2, he2, hrun⟩ := ih tx1 hnd'.2 ⟨w, hwrest, e, he1⟩
      have hw2a : w2 ≠ a := by
        rintro rfl
        exact hnd'.1 hw2
      refine ⟨w2, List.mem_cons_of_mem a hw2, e2,
        (writer_frame u w2 a tx tx1 e2 hw2a ha).mp he2, ?_⟩
      simp [runGroup, goFunc, ha, hrun]

/-- When every function of the group succeeds, the group returns `nil`. -/
theorem runGroup_ok (u : UnindexedBlockData) (order : List Writer) (tx : DB)
    (hnd : order.Nodup) (hall : ∀ w ∈ order, ∃ tx', u.writer w tx = .ok tx') :
    ∃ tx', u.runGroup order tx = .ok tx' := by
  induction order generalizing tx with
  | nil => exact ⟨tx, rfl⟩
  | cons a rest ih =>
    have hnd' := List.nodup_cons.mp hnd
    obtain ⟨tx1, ha⟩ := hall a (List.mem_cons_self a rest)
    have hrest : ∀ w ∈ rest, ∃ tx', u.writer w tx1 = .ok tx' := by
      intro w hw
      have hwa : w ≠ a := by
        rintro rfl
        exact hnd'.1 hw
      obtain ⟨t, ht⟩ := hall w (List.mem_cons_of_mem a hw)
      cases h1 : u.writer w tx1 with
      | error e =>
        have := (writer_frame u w a tx tx1 e hwa ha).mp h1
        rw [ht] at this
        cases this
      | ok t1 => exact ⟨t1, rfl⟩
    obtain ⟨tx2, hrun⟩ := ih tx1 hnd'.2 hrest
    exact ⟨tx2, by simp [runGroup, goFunc, ha, hrun]⟩

/-- What a successful run of the group leaves in the transaction: each relation holds the
result of its writer if that writer is in the run, and is untouched otherwise. -/
theorem runGroup_tables (u : UnindexedBlockData) (order : List Writer) (tx tx' : DB)
    (hnd : order.Nodup) (hrun : u.runGroup order tx = .ok tx') :
    tx'.idAddresses = tx.idAddresses ∧ tx'.messages = tx.messages ∧
    (Writer.blks ∈ order →
      Table.upsertAll BlockHeaderRecord.pk u.blks tx.blockHeaders = .ok tx'.blockHeaders) ∧
    (Writer.blks ∉ order → tx'.blockHeaders = tx.blockHeaders) ∧
    (Writer.synced ∈ order →
      Table.upsertAll BlockSynced.pk u.synced tx.blocksSynced = .ok tx'.blocksSynced) ∧
    (Writer.synced ∉ order → tx'.blocksSynced = tx.blocksSynced) ∧
    (Writer.parents ∈ order →
      Table.upsertAll BlockParent.pk u.parents tx.blockParents = .ok tx'.blockParents) ∧
    (Writer.parents ∉ order → tx'.blockParents = tx.blockParents) ∧
    (Writer.drandEntries ∈ order →
      Table.upsertAll DrandEntrie.pk u.drandEntries tx.drandEntries = .ok tx'.drandEntries) ∧
    (Writer.drandEntries ∉ order → tx'.drandEntries = tx.drandEntries) ∧
    (Writer.drandBlockEntries ∈ order →
      Table.upsertAll DrandBlockEntrie.pk u.drandBlockEntries tx.drandBlockEntries
        = .ok tx'.drandBlockEntries) ∧
    (Writer.drandBlockEntries ∉ order → tx'.drandBlockEntries = tx.drandBlockEntries) := by
  induction order generalizing tx with
  | nil =>
    cases hrun
    simp
  | cons a rest ih =>
    have hnd' := List.nodup_cons.mp hnd
    cases ha : u.writer a tx with
    | error ea => simp [runGroup, goFunc, ha] at hrun
    | ok tx1 =>
      have hrun1 : u.runGroup rest tx1 = .ok tx' := by
        simpa [runGroup, goFunc, ha] using hrun
      have h := ih tx1 hnd'.2 hrun1
      obtain ⟨h1, h2, h3, h4, h5, h6, h7, h8, h9, h10, h11, h12⟩ := h
      cases a <;>
        simp only [writer, BlockHeaders.PersistWithTx, BlocksSynced.PersistWithTx,
          BlockParents.PersistWithTx, DrandEntries.PersistWithTx,
          DrandBlockEntries.PersistWithTx] at ha <;>
        split at ha <;> cases ha <;>
        simp_all

/-- Every writer returns exactly once, whatever the order of return. -/
theorem sched_nodup (sched : Equiv.Perm Writer) : (Writer.all.map sched).Nodup :=
  List.Nodup.map sched.injective (by decide)

theorem mem_sched (sched : Equiv.Perm Writer) (w : Writer) : w ∈ Writer.all.map sched := by
  refine List.mem_map.mpr ⟨sched.symm w, ?_, by simp⟩
  cases sched.symm w <;> decide

end UnindexedBlockData

/-! ## Lemmas on `RunInTransaction` -/

theorem RunInTransaction_begin_refused (st : Store) (fn : DB → Except GoError DB)
    (e : GoError) (hb : st.failBegin st.db = some e) :
    RunInTransaction st fn = (some e, st) := by
  simp [RunInTransaction, hb]

theorem RunInTransaction_body_error (st : Store) (fn : DB → Except GoError DB)
    (e : GoError) (hb : st.failBegin st.db = none) (hfn : fn st.db = .error e) :
    RunInTransaction st fn = (some e, st) := by
  simp [RunInTransaction, hb, hfn]

theorem RunInTransaction_commit_refused (st : Store) (fn : DB → Except GoError DB)
    (tx : DB) (e : GoError) (hb : st.failBegin st.db = none) (hfn : fn st.db = .ok tx)
    (hc : st.failCommit tx = some e) :
    RunInTransaction st fn = (some e, st) := by
  simp [RunInTransaction, hb, hfn, hc]

theorem RunInTransaction_committed (st : Store) (fn : DB → Except GoError DB)
    (tx : DB) (hb : st.failBegin st.db = none) (hfn : fn st.db = .ok tx)
    (hc : st.failCommit tx = none) :
    RunInTransaction st fn = (none, { st with db := tx }) := by
  simp [RunInTransaction, hb, hfn, hc]

/-- Whenever `RunInTransaction` returns an error the database is as before. -/
theorem RunInTransaction_error_unchanged (st : Store) (fn : DB → Except GoError DB)
    (h : (RunInTransaction st fn).1 ≠ none) : (RunInTransaction st fn).2 = st := by
  unfold RunInTransaction at h ⊢
  cases hb : st.failBegin st.db with
  | some e => simp
  | none =>
    cases hfn : fn st.db with
    | error e => simp
    | ok tx =>
      cases hc : st.failCommit tx with
      | some e => simp [hc]
      | none => simp [hb, hfn, hc] at h

/-- `RunInTransaction` returns `nil` exactly when `BEGIN` is accepted, the function returns
`nil` and `COMMIT` is accepted. -/
theorem RunInTransaction_nil_iff (st : Store) (fn : DB → Except GoError DB) :
    (RunInTransaction st fn).1 = none ↔
      st.failBegin st.db = none ∧ ∃ tx, fn st.db = .ok tx ∧ st.failCommit tx = none := by
  unfold RunInTransaction
  cases hb : st.failBegin st.db with
  | some e => simp
  | none =>
    cases hfn : fn st.db with
    | error e => simp
    | ok tx =>
      cases hc : st.failCommit tx with
      | some e => simp [hc]
      | none => simp [hc]

/-! ## Properties of the flush -/

/-- C7, as stated, fails where it says that once all five writers succeed `Persist` returns
`nil`: over a store that accepts every insert and refuses the `COMMIT`, in whatever order
the writers return, all five writers of the accumulator holding `blockA` succeed and the
function run in the transaction returns `nil`, yet `Persist` returns the error of the
`COMMIT`, and nothing is committed. -/
theorem C7_commit_refused_after_all_writers_succeed :
    commitRefusingStore.failBegin commitRefusingStore.db = none ∧
    (∀ w, ∃ tx', (NewUnindexedBlockData.Add blockA).writer w commitRefusingStore.db
      = .ok tx') ∧
    ∀ sched : Equiv.Perm Writer,
      (∃ tx', (NewUnindexedBlockData.Add blockA).persistTx sched commitRefusingStore.db
        = .ok tx') ∧
      (NewUnindexedBlockData.Add blockA).Persist sched commitRefusingStore
        = (some commitRefused, commitRefusingStore) ∧
      ((NewUnindexedBlockData.Add blockA).Persist sched commitRefusingStore).1 ≠ none := by
  have hall : ∀ w, ∃ tx', (NewUnindexedBlockData.Add blockA).writer w commitRefusingStore.db
      = .ok tx' := by
    intro w
    cases w <;> exact ⟨_, rfl⟩
  refine ⟨rfl, hall, ?_⟩
  intro sched
  obtain ⟨tx', hrun⟩ := UnindexedBlockData.runGroup_ok (NewUnindexedBlockData.Add blockA)
    (Writer.all.map sched) commitRefusingStore.db (UnindexedBlockData.sched_nodup sched)
    (fun w _ => hall w)
  have hp : (NewUnindexedBlockData.Add blockA).Persist sched commitRefusingStore
      = (some commitRefused, commitRefusingStore) :=
    RunInTransaction_commit_refused commitRefusingStore _ tx' commitRefused rfl hrun rfl
  refine ⟨⟨tx', hrun⟩, hp, ?_⟩
  rw [hp]
  exact fun h => Option.noConfusion h

/-- C7, amended, for every accumulator, every store and every order in which the five
writers return.  (1) If any writer returns an error, `Persist` returns a non-nil error and
the database after the call is the database before it; the store having accepted `BEGIN`,
the function run in the transaction returns the wrapped error of a failing writer and
`Persist` returns that same error.  (2) If all five writers succeed, the function returns
`nil` with each of the five relations holding what its writer wrote and the other relations
untouched; `Persist` then returns `nil` and that state is committed if the store accepts
`BEGIN` and `COMMIT`, and returns the store's error, committing nothing, if the store
refuses either.  (3) `Persist` returns `nil` only when all five writers succeed, the
database is changed only when all five succeed, whenever `Persist` returns an error the
database is as before, and `Persist` returns `nil` exactly when `BEGIN` is accepted, the
function returns `nil` and `COMMIT` is accepted. -/
theorem C7_all_or_nothing_flush (u : UnindexedBlockData) (sched : Equiv.Perm Writer)
    (st : Store) :
    ((∃ w e, u.writer w st.db = .error e) →
      (u.Persist sched st).1 ≠ none ∧ (u.Persist sched st).2 = st ∧
      (st.failBegin st.db = none →
        ∃ w e, u.writer w st.db = .error e ∧
          u.persistTx sched st.db = .error (Errorf w.label e) ∧
          u.Persist sched st = (some (Errorf w.label e), st))) ∧
    ((∀ w, ∃ tx', u.writer w st.db = .ok tx') →
      ∃ tx', u.persistTx sched st.db = .ok tx' ∧
        Table.upsertAll BlockHeaderRecord.pk u.blks st.db.blockHeaders
          = .ok tx'.blockHeaders ∧
        Table.upsertAll BlockSynced.pk u.synced st.db.blocksSynced = .ok tx'.blocksSynced ∧
        Table.upsertAll BlockParent.pk u.parents st.db.blockParents
          = .ok tx'.blockParents ∧
        Table.upsertAll DrandEntrie.pk u.drandEntries st.db.drandEntries
          = .ok tx'.drandEntries ∧
        Table.upsertAll DrandBlockEntrie.pk u.drandBlockEntries st.db.drandBlockEntries
          = .ok tx'.drandBlockEntries ∧
        tx'.idAddresses = st.db.idAddresses ∧ tx'.messages = st.db.messages ∧
        (st.failBegin st.db = none → st.failCommit tx' = none →
          u.Persist sched st = (none, { st with db := tx' })) ∧
        (∀ e, st.failBegin st.db = none → st.failCommit tx' = some e →
          u.Persist sched st = (some e, st)) ∧
        (∀ e, st.failBegin st.db = some e → u.Persist sched st = (some e, st))) ∧
    ((u.Persist sched st).1 = none → ∀ w, ∃ tx', u.writer w st.db = .ok tx') ∧
    ((u.Persist sched st).2 ≠ st → ∀ w, ∃ tx', u.writer w st.db = .ok tx') ∧
    ((u.Persist sched st).1 ≠ none → (u.Persist sched st).2 = st) ∧
    ((u.Persist sched st).1 = none ↔
      st.failBegin st.db = none ∧
        ∃ tx', u.persistTx sched st.db = .ok tx' ∧ st.failCommit tx' = none) := by
  have hnd := UnindexedBlockData.sched_nodup sched
  have hmem := UnindexedBlockData.mem_sched sched
  have hunch : (u.Persist sched st).1 ≠ none → (u.Persist sched st).2 = st :=
    RunInTransaction_error_unchanged st (u.persistTx sched)
  have hiff : (u.Persist sched st).1 = none ↔
      st.failBegin st.db = none ∧
        ∃ tx', u.persistTx sched st.db = .ok tx' ∧ st.failCommit tx' = none :=
    RunInTransaction_nil_iff st (u.persistTx sched)
  have hbody : (∃ w e, u.writer w st.db = .error e) →
      ∃ w e, u.writer w st.db = .error e ∧
        u.persistTx sched st.db = .error (Errorf w.label e) := by
    rintro ⟨w, e, he⟩
    obtain ⟨w2, _, e2, he2, hrun⟩ :=
      UnindexedBlockData.runGroup_error u (Writer.all.map sched) st.db hnd
        ⟨w, hmem w, e, he⟩
    exact ⟨w2, e2, he2, hrun⟩
  have hnil : (u.Persist sched st).1 = none → ∀ w, ∃ tx', u.writer w st.db = .ok tx' := by
    intro hn w
    obtain ⟨_, tx', hrun, _⟩ := hiff.mp hn
    cases hw : u.writer w st.db with
    | ok t => exact ⟨t, rfl⟩
    | error e =>
      obtain ⟨w2, e2, _, hrun2⟩ := hbody ⟨w, e, hw⟩
      rw [hrun] at hrun2
      cases hrun2
  refine ⟨?_, ?_, hnil, ?_, hunch, hiff⟩
  · intro hfail
    have hne : (u.Persist sched st).1 ≠ none := by
      intro hn
      obtain ⟨w, e, he⟩ := hfail
      obtain ⟨t, ht⟩ := hnil hn w
      rw [ht] at he
      cases he
    refine ⟨hne, hunch hne, ?_⟩
    intro hb
    obtain ⟨w, e, he, hrun⟩ := hbody hfail
    exact ⟨w, e, he, hrun, RunInTransaction_body_error st _ _ hb hrun⟩
  · intro hall
    obtain ⟨tx', hrun⟩ :=
      UnindexedBlockData.runGroup_ok u (Writer.all.map sched) st.db hnd (fun w _ => hall w)
    obtain ⟨h1, h2, h3, _, h5, _, h7, _, h9, _, h11, _⟩ :=
      UnindexedBlockData.runGroup_tables u (Writer.all.map sched) st.db tx' hnd hrun
    exact ⟨tx', hrun, h3 (hmem _), h5 (hmem _), h7 (hmem _), h9 (hmem _), h11 (hmem _),
      h1, h2,
      fun hb hc => RunInTransaction_committed st _ tx' hb hrun hc,
      fun e hb hc => RunInTransaction_commit_refused st _ tx' e hb hrun hc,
      fun e hb => RunInTransaction_begin_refused st _ e hb⟩
  · intro hchg
    apply hnil
    by_contra hne
    exact hchg (hunch hne)

/-- Witness of C7 (amended): the accumulator holding `blockA`, over a store that refuses
the inserts of the epoch-entry writer only; `Persist` returns the wrapped error of that
writer and the database is as before. -/
theorem C7_all_or_nothing_flush_witness :
    (∃ w e, (NewUnindexedBlockData.Add blockA).writer w brokenDrandStore.db = .error e) ∧
    (∀ w, w ≠ Writer.drandEntries →
      ∃ tx', (NewUnindexedBlockData.Add blockA).writer w brokenDrandStore.db = .ok tx') ∧
    brokenDrandStore.failBegin brokenDrandStore.db = none ∧
    (NewUnindexedBlockData.Add blockA).Persist (Equiv.refl Writer) brokenDrandStore
      = (some (.wrap "persist drand entries: connection lost" (.new "connection lost")),
         brokenDrandStore) ∧
    ((NewUnindexedBlockData.Add blockA).Persist (Equiv.refl Writer) brokenDrandStore).2
      = brokenDrandStore ∧
    ∃ w e, (NewUnindexedBlockData.Add blockA).writer w brokenDrandStore.db = .error e ∧
      (NewUnindexedBlockData.Add blockA).persistTx (Equiv.refl Writer) brokenDrandStore.db
        = .error (Errorf w.label e) ∧
      (NewUnindexedBlockData.Add blockA).Persist (Equiv.refl Writer) brokenDrandStore
        = (some (Errorf w.label e), brokenDrandStore) :=
  have hfail : ∃ w e,
      (NewUnindexedBlockData.Add blockA).writer w brokenDrandStore.db = .error e :=
    ⟨Writer.drandEntries, lostConn, rfl⟩
  have h := (C7_all_or_nothing_flush (NewUnindexedBlockData.Add blockA) (Equiv.refl Writer)
    brokenDrandStore).1 hfail
  ⟨hfail,
    fun w hw => by cases w <;> first | exact absurd rfl hw | exact ⟨_, rfl⟩,
    rfl, rfl, h.2.1, h.2.2 rfl⟩

/-! ## Lemmas on a retried flush of one relation -/

section Retry

variable {α κ : Type} [DecidableEq κ] (pk : α → κ)

theorem key_mem_insertRow_iff (r : α) (rows : Multiset α) (k : κ) :
    k ∈ (insertRow pk r rows).map pk ↔ k = pk r ∨ k ∈ rows.map pk := by
  unfold insertRow
  split
  · rename_i hmem
    constructor
    · exact Or.inr
    · rintro (rfl | h)
      · exact hmem
      · exact h
  · simp

/-- The keys present after a flush are the keys present before and the keys of the batch. -/
theorem key_mem_upsertRows_iff (l : List α) (rows : Multiset α) (k : κ) :
    k ∈ (upsertRows pk l rows).map pk ↔ k ∈ rows.map pk ∨ k ∈ l.map pk := by
  induction l generalizing rows with
  | nil => simp [upsertRows_nil]
  | cons r rest ih =>
    rw [upsertRows_cons, ih, key_mem_insertRow_iff, List.map_cons, List.mem_cons]
    tauto

/-- The rows after a flush: the rows present before, and for every key that was absent the
first record of the batch with that key. -/
theorem mem_upsertRows_iff (l : List α) (rows : Multiset α) (x : α) :
    x ∈ upsertRows pk l rows ↔
      x ∈ rows ∨
        (pk x ∉ rows.map pk ∧ l.find? (fun r => decide (pk r = pk x)) = some x) := by
  induction l generalizing rows with
  | nil => simp [upsertRows_nil]
  | cons r rest ih =>
    rw [upsertRows_cons, ih, key_mem_insertRow_iff]
    by_cases hr : pk r ∈ rows.map pk
    · have hins : insertRow pk r rows = rows := by simp [insertRow, hr]
      rw [hins]
      constructor
      · rintro (h | ⟨hk, hf⟩)
        · exact Or.inl h
        · have hk' : pk x ∉ rows.map pk := fun h => hk (Or.inr h)
          have hne : ¬ pk r = pk x := fun h => hk' (h ▸ hr)
          exact Or.inr ⟨hk', by simpa [List.find?, hne] using hf⟩
      · rintro (h | ⟨hk, hf⟩)
        · exact Or.inl h
        · have hne : ¬ pk r = pk x := fun h => hk (h ▸ hr)
          have hne' : ¬ pk x = pk r := fun h => hne h.symm
          refine Or.inr ⟨?_, by simpa [List.find?, hne] using hf⟩
          rintro (h | h)
          · exact hne' h
          · exact hk h
    · have hins : insertRow pk r rows = r ::ₘ rows := by simp [insertRow, hr]
      rw [hins, Multiset.mem_cons]
      constructor
      · rintro ((rfl | h) | ⟨hk, hf⟩)
        · exact Or.inr ⟨hr, by simp [List.find?]⟩
        · exact Or.inl h
        · have hne : ¬ pk r = pk x := fun h => hk (Or.inl h.symm)
          exact Or.inr ⟨fun h => hk (Or.inr h), by simpa [List.find?, hne] using hf⟩
      · rintro (h | ⟨hk, hf⟩)
        · exact Or.inl (Or.inr h)
        · by_cases hrx : pk r = pk x
          · have : r = x := by simpa [List.find?, hrx] using hf
            exact Or.inl (Or.inl this.symm)
          · refine Or.inr ⟨?_, by simpa [List.find?, hrx] using hf⟩
            rintro (h | h)
            · exact hrx h.symm
            · exact hk h

/-- A record of the batch has a first record with its key in the batch. -/
theorem find_key_of_mem (l : List α) (x : α) (hx : x ∈ l) :
    ∃ z, l.find? (fun r => decide (pk r = pk x)) = some z ∧ z ∈ l ∧ pk z = pk x := by
  cases hf : l.find? (fun r => decide (pk r = pk x)) with
  | none =>
    have := List.find?_eq_none.mp hf x hx
    simp at this
  | some z =>
    exact ⟨z, rfl, List.mem_of_find?_eq_some hf, by simpa using List.find?_some hf⟩

/-- Flushing `a` and then `b` into a relation with unique keys leaves what flushing `b` alone
leaves exactly when `retrySafe` holds. -/
theorem upsertRows_retry_iff (a b : List α) (rows : Multiset α)
    (hnd : (rows.map pk).Nodup) :
    upsertRows pk b (upsertRows pk a rows) = upsertRows pk b rows ↔
      retrySafe pk rows a b := by
  have h1 : (upsertRows pk b (upsertRows pk a rows)).Nodup :=
    Multiset.Nodup.of_map pk
      (upsertRows_keys_nodup pk b _ (upsertRows_keys_nodup pk a rows hnd))
  have h2 : (upsertRows pk b rows).Nodup :=
    Multiset.Nodup.of_map pk (upsertRows_keys_nodup pk b rows hnd)
  constructor
  · intro heq x hx hk
    obtain ⟨z, hz, _, hzk⟩ := find_key_of_mem pk a x hx
    have hzk' : pk z ∉ rows.map pk := hzk ▸ hk
    have hz' : a.find? (fun r => decide (pk r = pk z)) = some z := by rw [hzk]; exact hz
    have hz1 : z ∈ upsertRows pk a rows :=
      (mem_upsertRows_iff pk a rows z).mpr (Or.inr ⟨hzk', hz'⟩)
    have hz2 : z ∈ upsertRows pk b rows := by
      rw [← heq]
      exact Multiset.mem_of_le (le_upsertRows pk b _) hz1
    rcases (mem_upsertRows_iff pk b rows z).mp hz2 with h | ⟨_, hf⟩
    · exact absurd (Multiset.mem_map_of_mem pk h) hzk'
    · rw [hzk] at hf
      rw [hf, hz]
  · intro hsafe
    refine (Multiset.Nodup.ext h1 h2).mpr ?_
    intro x
    rw [mem_upsertRows_iff pk b (upsertRows pk a rows), mem_upsertRows_iff pk a rows,
      mem_upsertRows_iff pk b rows, key_mem_upsertRows_iff]
    constructor
    · rintro ((h | ⟨hk, hf⟩) | ⟨hk, hf⟩)
      · exact Or.inl h
      · have hx : x ∈ a := List.mem_of_find?_eq_some hf
        exact Or.inr ⟨hk, (hsafe x hx hk).trans hf⟩
      · exact Or.inr ⟨fun h => hk (Or.inl h), hf⟩
    · rintro (h | ⟨hk, hf⟩)
      · exact Or.inl (Or.inl h)
      · by_cases hka : pk x ∈ a.map pk
        · obtain ⟨z, hz, hzk⟩ := List.mem_map.mp hka
          have hs := hsafe z hz (hzk ▸ hk)
          rw [hzk] at hs
          exact Or.inl (Or.inr ⟨hk, hs.symm.trans hf⟩)
        · refine Or.inr ⟨?_, hf⟩
          rintro (h | h)
          · exact hk h
          · exact hka h

/-- A second batch that starts with the first is safe to retry with. -/
theorem retrySafe_append (a more : List α) (rows : Multiset α) :
    retrySafe pk rows a (a ++ more) := by
  intro x hx _
  obtain ⟨z, hz, _, _⟩ := find_key_of_mem pk a x hx
  rw [List.find?_append, hz]
  rfl

/-- When the primary key is the whole record, every superset is safe to retry with. -/
theorem retrySafe_of_superset (hinj : Function.Injective pk) (a b : List α)
    (rows : Multiset α) (hsup : ∀ x ∈ a, x ∈ b) : retrySafe pk rows a b := by
  intro x hx _
  obtain ⟨z, hz, _, hzk⟩ := find_key_of_mem pk a x hx
  obtain ⟨y, hy, _, hyk⟩ := find_key_of_mem pk b x (hsup x hx)
  rw [hz, hy, hinj hzk, hinj hyk]

end Retry

/-! ## Lemmas on a flush over a store that refuses nothing -/

theorem IdAddress.pk_injective : Function.Injective IdAddress.pk := by
  intro x y h
  cases x
  cases y
  simp only [IdAddress.pk, Prod.mk.injEq] at h
  obtain ⟨h1, h2, h3⟩ := h
  subst h1 h2 h3
  rfl

/-- The loop of `IdAddressList.PersistWithTx` is the batch insert into the relation of
address records. -/
theorem IdAddressList.PersistWithTx_eq (ias : List IdAddress) (tx : DB) :
    IdAddressList.PersistWithTx ias tx =
      match Table.upsertAll IdAddress.pk ias tx.idAddresses with
      | .error err => .error err
      | .ok t => .ok { tx with idAddresses := t } := by
  induction ias generalizing tx with
  | nil => rfl
  | cons ia rest ih =>
    simp only [IdAddressList.PersistWithTx, IdAddress.PersistWithTx, Table.upsertAll]
    cases tx.idAddresses.Insert IdAddress.pk ia with
    | error err => rfl
    | ok t => simp only [ih]

theorem Store.faultFree_setDb (st : Store) (d : DB) (hff : st.faultFree)
    (hd : d.faultFree) : Store.faultFree { st with db := d } :=
  ⟨hd, hff.2.1, hff.2.2⟩

theorem IdAddressList.flushed_list_faultFree (ias : List IdAddress) (db : DB)
    (hff : db.faultFree) : (IdAddressList.flushed ias db).faultFree := hff

theorem IdAddressList.Persist_on_faultFree (ias : List IdAddress) (st : Store)
    (hff : st.faultFree) :
    IdAddressList.Persist ias st = (none, { st with db := IdAddressList.flushed ias st.db }) := by
  have hbody : IdAddressList.PersistWithTx ias st.db
      = .ok (IdAddressList.flushed ias st.db) := by
    rw [IdAddressList.PersistWithTx_eq,
      upsertAll_faultFree IdAddress.pk ias st.db.idAddresses hff.1.1]
    rfl
  exact RunInTransaction_committed st _ _ (hff.2.1 _) hbody (hff.2.2 _)

namespace UnindexedBlockData

theorem flushed_faultFree (u : UnindexedBlockData) (db : DB) (hff : db.faultFree) :
    (u.flushed db).faultFree := hff

theorem writer_faultFree (u : UnindexedBlockData) (w : Writer) (db : DB)
    (hff : db.faultFree) : ∃ tx', u.writer w db = .ok tx' := by
  obtain ⟨_, _, h3, h4, h5, h6, h7⟩ := hff
  cases w
  · simp only [writer, BlockHeaders.PersistWithTx, upsertAll_faultFree _ _ _ h3]
    exact ⟨_, rfl⟩
  · simp only [writer, BlocksSynced.PersistWithTx, upsertAll_faultFree _ _ _ h4]
    exact ⟨_, rfl⟩
  · simp only [writer, BlockParents.PersistWithTx, upsertAll_faultFree _ _ _ h5]
    exact ⟨_, rfl⟩
  · simp only [writer, DrandEntries.PersistWithTx, upsertAll_faultFree _ _ _ h6]
    exact ⟨_, rfl⟩
  · simp only [writer, DrandBlockEntries.PersistWithTx, upsertAll_faultFree _ _ _ h7]
    exact ⟨_, rfl⟩

/-- On relations whose store refuses no insert, the function run in the transaction returns
`nil` and leaves `flushed`, in whatever order the writers return. -/
theorem persistTx_faultFree (u : UnindexedBlockData) (sched : Equiv.Perm Writer) (db : DB)
    (hff : db.faultFree) : u.persistTx sched db = .ok (u.flushed db) := by
  have hnd := sched_nodup sched
  obtain ⟨tx', hrun⟩ := runGroup_ok u (Writer.all.map sched) db hnd
    (fun w _ => writer_faultFree u w db hff)
  obtain ⟨h1, h2, h3, _, h5, _, h7, _, h9, _, h11, _⟩ :=
    runGroup_tables u (Writer.all.map sched) db tx' hnd hrun
  have h3' := h3 (mem_sched sched _)
  have h5' := h5 (mem_sched sched _)
  have h7' := h7 (mem_sched sched _)
  have h9' := h9 (mem_sched sched _)
  have h11' := h11 (mem_sched sched _)
  obtain ⟨_, _, f3, f4, f5, f6, f7⟩ := hff
  rw [upsertAll_faultFree _ _ _ f3] at h3'
  rw [upsertAll_faultFree _ _ _ f4] at h5'
  rw [upsertAll_faultFree _ _ _ f5] at h7'
  rw [upsertAll_faultFree _ _ _ f6] at h9'
  rw [upsertAll_faultFree _ _ _ f7] at h11'
  injection h3' with h3'
  injection h5' with h5'
  injection h7' with h7'
  injection h9' with h9'
  injection h11' with h11'
  have htx : tx' = u.flushed db := by
    cases tx'
    simp only [flushed, DB.mk.injEq]
    simp only at h1 h2 h3' h5' h7' h9' h11'
    exact ⟨h1, h2, h3'.symm, h5'.symm, h7'.symm, h9'.symm, h11'.symm⟩
  rw [persistTx, hrun, htx]

/-- On a store that refuses nothing, `Persist` returns `nil` and commits `flushed`, in
whatever order the writers return. -/
theorem Persist_faultFree (u : UnindexedBlockData) (sched : Equiv.Perm Writer) (st : Store)
    (hff : st.faultFree) : u.Persist sched st = (none, { st with db := u.flushed st.db }) :=
  RunInTransaction_committed st _ _ (hff.2.1 _) (persistTx_faultFree u sched st.db hff.1)
    (hff.2.2 _)

/-- Flushing an accumulator and then the same accumulator grown by further `Add`s commits
what flushing the grown accumulator once commits. -/
theorem flushed_retry_grown (u : UnindexedBlockData) (more : List BlockHeader) (db : DB) :
    (u.addAll more).flushed (u.flushed db) = (u.addAll more).flushed db := by
  simp only [flushed, blks_addAll, synced_addAll, parents_addAll, drandEntries_addAll,
    drandBlockEntries_addAll, upsertRows_retry_grown]

/-- Flushing `u` and then `v` leaves what flushing `v` alone leaves exactly when `retrySafe`
holds of the five buffers. -/
theorem flushed_retry_iff (u v : UnindexedBlockData) (db : DB) (hk : db.keysUnique) :
    v.flushed (u.flushed db) = v.flushed db ↔ u.retrySafe db v := by
  obtain ⟨_, _, k3, k4, k5, k6, k7⟩ := hk
  unfold retrySafe
  rw [← upsertRows_retry_iff BlockHeaderRecord.pk u.blks v.blks _ k3,
    ← upsertRows_retry_iff BlockSynced.pk u.synced v.synced _ k4,
    ← upsertRows_retry_iff BlockParent.pk u.parents v.parents _ k5,
    ← upsertRows_retry_iff DrandEntrie.pk u.drandEntries v.drandEntries _ k6,
    ← upsertRows_retry_iff DrandBlockEntrie.pk u.drandBlockEntries v.drandBlockEntries _ k7]
  simp only [flushed, DB.mk.injEq, Table.mk.injEq, and_true, true_and]

theorem flushed_keysUnique (u : UnindexedBlockData) (db : DB) (hk : db.keysUnique) :
    (u.flushed db).keysUnique := by
  obtain ⟨k1, k2, k3, k4, k5, k6, k7⟩ := hk
  exact ⟨k1, k2, upsertRows_keys_nodup _ _ _ k3, upsertRows_keys_nodup _ _ _ k4,
    upsertRows_keys_nodup _ _ _ k5, upsertRows_keys_nodup _ _ _ k6,
    upsertRows_keys_nodup _ _ _ k7⟩

theorem flushed_rows_le (u : UnindexedBlockData) (db : DB) :
    db.blockHeaders.rows ≤ (u.flushed db).blockHeaders.rows ∧
    db.blocksSynced.rows ≤ (u.flushed db).blocksSynced.rows ∧
    db.blockParents.rows ≤ (u.flushed db).blockParents.rows ∧
    db.drandEntries.rows ≤ (u.flushed db).drandEntries.rows ∧
    db.drandBlockEntries.rows ≤ (u.flushed db).drandBlockEntries.rows :=
  ⟨le_upsertRows _ _ _, le_upsertRows _ _ _, le_upsertRows _ _ _, le_upsertRows _ _ _,
    le_upsertRows _ _ _⟩

end UnindexedBlockData

/-- Flushing `a` and then `b` leaves what flushing `b` alone leaves exactly when `retrySafe`
holds of the two batches. -/
theorem IdAddressList.flushed_list_retry_iff (a b : List IdAddress) (db : DB)
    (hk : db.keysUnique) :
    IdAddressList.flushed b (IdAddressList.flushed a db) = IdAddressList.flushed b db ↔
      retrySafe IdAddress.pk db.idAddresses.rows a b := by
  rw [← upsertRows_retry_iff IdAddress.pk a b _ hk.1]
  simp only [IdAddressList.flushed, DB.mk.injEq, Table.mk.injEq, and_true, true_and]

theorem IdAddressList.flushed_list_keysUnique (a : List IdAddress) (db : DB)
    (hk : db.keysUnique) : (IdAddressList.flushed a db).keysUnique := by
  obtain ⟨k1, k2, k3, k4, k5, k6, k7⟩ := hk
  exact ⟨upsertRows_keys_nodup _ _ _ k1, k2, k3, k4, k5, k6, k7⟩

/-- Two databases over the same store are equal exactly when their relations are. -/
theorem Store.setDb_eq_iff (st : Store) (d₁ d₂ : DB) (e₁ e₂ : Option GoError) :
    ((e₁, { st with db := d₁ }) : Option GoError × Store) = (e₂, { st with db := d₂ }) ↔
      e₁ = e₂ ∧ d₁ = d₂ := by
  simp only [Prod.mk.injEq, Store.mk.injEq, and_true]

/-- The row written first stays: once `sampleMessage` is stored, a batch that offers
`otherMessage` (same primary key, another value) ahead of it changes nothing, while the same
batch on the empty database stores `otherMessage`. -/
theorem Messages.first_row_stays :
    ∃ tx₁ tx₂ tx₃,
      Messages.PersistWithTx [sampleMessage] emptyDB = .ok tx₁ ∧
      Messages.PersistWithTx [otherMessage, sampleMessage] tx₁ = .ok tx₂ ∧
      Messages.PersistWithTx [otherMessage, sampleMessage] emptyDB = .ok tx₃ ∧
      tx₂.messages.rows = {sampleMessage} ∧ tx₃.messages.rows = {otherMessage} :=
  ⟨_, _, _, rfl, rfl, rfl, by decide, by decide⟩

theorem emptyDB_faultFree : emptyDB.faultFree :=
  ⟨fun _ _ => rfl, fun _ _ => rfl, fun _ _ => rfl, fun _ _ => rfl, fun _ _ => rfl,
    fun _ _ => rfl, fun _ _ => rfl⟩

theorem emptyStore_faultFree : emptyStore.faultFree :=
  ⟨emptyDB_faultFree, fun _ => rfl, fun _ => rfl⟩

theorem emptyDB_keysUnique : emptyDB.keysUnique := by
  simp [DB.keysUnique, Table.keysUnique, emptyDB, emptyTable]

/-! ## Properties of a retried flush -/

/-- C9, as stated, fails for `UnindexedBlockData.Persist`.  The accumulator holding `blockY`
and `blockX` is a superset of the one holding `blockX` (every record of each buffer of the
first is in the same buffer of the second), the store refuses nothing, and both flushes
return `nil`; but `blockY`, added first, carries another payload for the round of
`blockX`.  After the two flushes the epoch-entry relation keeps the row written by the
first flush, payload `[1]`; flushing the superset once leaves payload `[2]`.  This holds in
whatever order the writers return. -/
theorem C9_superset_flush_differs_from_single_flush :
    emptyStore.faultFree ∧ emptyStore.db.keysUnique ∧
    ((∀ r ∈ (NewUnindexedBlockData.Add blockX).blks,
        r ∈ (NewUnindexedBlockData.addAll [blockY, blockX]).blks) ∧
     (∀ r ∈ (NewUnindexedBlockData.Add blockX).synced,
        r ∈ (NewUnindexedBlockData.addAll [blockY, blockX]).synced) ∧
     (∀ r ∈ (NewUnindexedBlockData.Add blockX).parents,
        r ∈ (NewUnindexedBlockData.addAll [blockY, blockX]).parents) ∧
     (∀ r ∈ (NewUnindexedBlockData.Add blockX).drandEntries,
        r ∈ (NewUnindexedBlockData.addAll [blockY, blockX]).drandEntries) ∧
     (∀ r ∈ (NewUnindexedBlockData.Add blockX).drandBlockEntries,
        r ∈ (NewUnindexedBlockData.addAll [blockY, blockX]).drandBlockEntries)) ∧
    ∀ s₁ s₂ s₃ : Equiv.Perm Writer,
      ((NewUnindexedBlockData.Add blockX).Persist s₁ emptyStore).1 = none ∧
      ((NewUnindexedBlockData.addAll [blockY, blockX]).Persist s₂
        ((NewUnindexedBlockData.Add blockX).Persist s₁ emptyStore).2).1 = none ∧
      ((NewUnindexedBlockData.addAll [blockY, blockX]).Persist s₂
        ((NewUnindexedBlockData.Add blockX).Persist s₁ emptyStore).2).2.db.drandEntries.rows
        = {{ Round := 5, Data := [1] }} ∧
      ((NewUnindexedBlockData.addAll [blockY, blockX]).Persist s₃
        emptyStore).2.db.drandEntries.rows
        = {{ Round := 5, Data := [2] }} ∧
      (NewUnindexedBlockData.addAll [blockY, blockX]).Persist s₂
        ((NewUnindexedBlockData.Add blockX).Persist s₁ emptyStore).2
        ≠ (NewUnindexedBlockData.addAll [blockY, blockX]).Persist s₃ emptyStore := by
  refine ⟨emptyStore_faultFree, emptyDB_keysUnique,
    ⟨by decide, by decide, by decide, by decide, by decide⟩, ?_⟩
  intro s₁ s₂ s₃
  have h1 := UnindexedBlockData.Persist_faultFree (NewUnindexedBlockData.Add blockX) s₁
    emptyStore emptyStore_faultFree
  have hff1 : Store.faultFree
      { emptyStore with db := (NewUnindexedBlockData.Add blockX).flushed emptyStore.db } :=
    Store.faultFree_setDb _ _ emptyStore_faultFree
      (UnindexedBlockData.flushed_faultFree _ _ emptyDB_faultFree)
  have h2 := UnindexedBlockData.Persist_faultFree
    (NewUnindexedBlockData.addAll [blockY, blockX]) s₂ _ hff1
  have h3 := UnindexedBlockData.Persist_faultFree
    (NewUnindexedBlockData.addAll [blockY, blockX]) s₃ emptyStore emptyStore_faultFree
  rw [h1, h2, h3]
  have hrows1 : ((NewUnindexedBlockData.addAll [blockY, blockX]).flushed
      ((NewUnindexedBlockData.Add blockX).flushed emptyDB)).drandEntries.rows
      = {{ Round := 5, Data := [1] }} := by decide
  have hrows2 : ((NewUnindexedBlockData.addAll [blockY, blockX]).flushed
      emptyDB).drandEntries.rows = {{ Round := 5, Data := [2] }} := by decide
  refine ⟨rfl, rfl, hrows1, hrows2, ?_⟩
  intro heq
  have hrows : ((NewUnindexedBlockData.addAll [blockY, blockX]).flushed
      ((NewUnindexedBlockData.Add blockX).flushed emptyDB)).drandEntries.rows
      = ((NewUnindexedBlockData.addAll [blockY, blockX]).flushed emptyDB).drandEntries.rows :=
    congrArg (fun p : Option GoError × Store => p.2.db.drandEntries.rows) heq
  rw [hrows1, hrows2] at hrows
  exact absurd hrows (by decide)

/-- C9, amended.  Over a store whose insert does nothing on a primary-key conflict and
which refuses nothing (no insert, no `BEGIN`, no `COMMIT`), starting from a database with at
most one row per primary key: flushing a batch and then any second batch succeeds both
times, leaves at most one row per primary key, and keeps every row present after the first
flush as it was (for `IdAddressList.Persist` with batches `a`, `b`, and for
`UnindexedBlockData.Persist` with accumulators `u`, `v`, in whatever order the writers
return).  The final database equals the one that flushing the second batch once gives
exactly when `retrySafe` holds: for every record of the first batch whose primary key was
not in the database, the first record with that key in the second batch is the first record
with that key in the first batch.  That is so for every superset when the primary key is the
whole record (`IdAddressList.Persist`), for the same batch again, and for a second
accumulator grown from the first by further `Add`s. -/
theorem C9_flush_idempotent_under_retry (st : Store) (a b : List IdAddress)
    (u v : UnindexedBlockData) (more : List BlockHeader) (s₁ s₂ s₃ : Equiv.Perm Writer)
    (hstore : st.faultFree) (hkeys : st.db.keysUnique) :
    ((IdAddressList.Persist a st).1 = none ∧
     (IdAddressList.Persist b (IdAddressList.Persist a st).2).1 = none ∧
     (IdAddressList.Persist b (IdAddressList.Persist a st).2).2.db.keysUnique ∧
     (IdAddressList.Persist a st).2.db.idAddresses.rows
       ≤ (IdAddressList.Persist b (IdAddressList.Persist a st).2).2.db.idAddresses.rows ∧
     (∀ x ∈ a, x ∈ (IdAddressList.Persist a st).2.db.idAddresses.rows) ∧
     (IdAddressList.Persist b (IdAddressList.Persist a st).2 = IdAddressList.Persist b st ↔
       retrySafe IdAddress.pk st.db.idAddresses.rows a b) ∧
     ((∀ x ∈ a, x ∈ b) →
       IdAddressList.Persist b (IdAddressList.Persist a st).2 = IdAddressList.Persist b st) ∧
     IdAddressList.Persist a (IdAddressList.Persist a st).2 = IdAddressList.Persist a st) ∧
    ((u.Persist s₁ st).1 = none ∧
     (v.Persist s₂ (u.Persist s₁ st).2).1 = none ∧
     (v.Persist s₂ (u.Persist s₁ st).2).2.db.keysUnique ∧
     ((u.Persist s₁ st).2.db.blockHeaders.rows
        ≤ (v.Persist s₂ (u.Persist s₁ st).2).2.db.blockHeaders.rows ∧
      (u.Persist s₁ st).2.db.blocksSynced.rows
        ≤ (v.Persist s₂ (u.Persist s₁ st).2).2.db.blocksSynced.rows ∧
      (u.Persist s₁ st).2.db.blockParents.rows
        ≤ (v.Persist s₂ (u.Persist s₁ st).2).2.db.blockParents.rows ∧
      (u.Persist s₁ st).2.db.drandEntries.rows
        ≤ (v.Persist s₂ (u.Persist s₁ st).2).2.db.drandEntries.rows ∧
      (u.Persist s₁ st).2.db.drandBlockEntries.rows
        ≤ (v.Persist s₂ (u.Persist s₁ st).2).2.db.drandBlockEntries.rows) ∧
     (v.Persist s₂ (u.Persist s₁ st).2 = v.Persist s₃ st ↔ u.retrySafe st.db v) ∧
     (u.addAll more).Persist s₂ (u.Persist s₁ st).2 = (u.addAll more).Persist s₃ st ∧
     u.Persist s₂ (u.Persist s₁ st).2 = u.Persist s₃ st) := by
  constructor
  · have e1 := IdAddressList.Persist_on_faultFree a st hstore
    have hff1 : Store.faultFree { st with db := IdAddressList.flushed a st.db } :=
      Store.faultFree_setDb _ _ hstore (IdAddressList.flushed_list_faultFree a st.db hstore.1)
    have e2 : ∀ c : List IdAddress,
        IdAddressList.Persist c (IdAddressList.Persist a st).2 =
          (none, { st with
            db := IdAddressList.flushed c (IdAddressList.flushed a st.db) }) := by
      intro c
      rw [e1]
      exact IdAddressList.Persist_on_faultFree c _ hff1
    have e3 : ∀ c : List IdAddress,
        IdAddressList.Persist c st = (none, { st with db := IdAddressList.flushed c st.db }) :=
      fun c => IdAddressList.Persist_on_faultFree c st hstore
    have hiff : ∀ c : List IdAddress,
        (IdAddressList.Persist c (IdAddressList.Persist a st).2 = IdAddressList.Persist c st ↔
          retrySafe IdAddress.pk st.db.idAddresses.rows a c) := by
      intro c
      rw [e2 c, e3 c, Store.setDb_eq_iff, IdAddressList.flushed_list_retry_iff a c st.db hkeys]
      simp
    refine ⟨?_, ?_, ?_, ?_, ?_, hiff b, ?_, ?_⟩
    · rw [e1]
    · rw [e2 b]
    · rw [e2 b]
      exact IdAddressList.flushed_list_keysUnique _ _
        (IdAddressList.flushed_list_keysUnique a st.db hkeys)
    · rw [e2 b, e1]
      exact le_upsertRows _ _ _
    · intro x hx
      rw [e1]
      exact (mem_upsertRows IdAddress.pk IdAddress.pk_injective a x _).mpr (Or.inr hx)
    · intro hsup
      exact (hiff b).mpr (retrySafe_of_superset IdAddress.pk IdAddress.pk_injective a b _ hsup)
    · exact (hiff a).mpr
        (retrySafe_of_superset IdAddress.pk IdAddress.pk_injective a a _ (fun x hx => hx))
  · have h1 := UnindexedBlockData.Persist_faultFree u s₁ st hstore
    have hff1 : Store.faultFree { st with db := u.flushed st.db } :=
      Store.faultFree_setDb _ _ hstore (UnindexedBlockData.flushed_faultFree u st.db hstore.1)
    have h2 : ∀ (w : UnindexedBlockData) (s : Equiv.Perm Writer),
        w.Persist s (u.Persist s₁ st).2
          = (none, { st with db := w.flushed (u.flushed st.db) }) := by
      intro w s
      rw [h1]
      exact UnindexedBlockData.Persist_faultFree w s _ hff1
    have h3 : ∀ (w : UnindexedBlockData) (s : Equiv.Perm Writer),
        w.Persist s st = (none, { st with db := w.flushed st.db }) :=
      fun w s => UnindexedBlockData.Persist_faultFree w s st hstore
    have hiff : ∀ w : UnindexedBlockData,
        (w.Persist s₂ (u.Persist s₁ st).2 = w.Persist s₃ st ↔ u.retrySafe st.db w) := by
      intro w
      rw [h2 w s₂, h3 w s₃, Store.setDb_eq_iff,
        UnindexedBlockData.flushed_retry_iff u w st.db hkeys]
      simp
    refine ⟨?_, ?_, ?_, ?_, hiff v, ?_, ?_⟩
    · rw [h1]
    · rw [h2 v s₂]
    · rw [h2 v s₂]
      exact UnindexedBlockData.flushed_keysUnique _ _
        (UnindexedBlockData.flushed_keysUnique u st.db hkeys)
    · rw [h2 v s₂, h1]
      exact UnindexedBlockData.flushed_rows_le _ _
    · rw [h2 _ s₂, h3 _ s₃, UnindexedBlockData.flushed_retry_grown]
    · have := UnindexedBlockData.flushed_retry_grown u [] st.db
      rw [UnindexedBlockData.addAll_nil] at this
      rw [h2 u s₂, h3 u s₃, this]

/-- Witness of C9 (amended) on the empty database over a store that refuses nothing: one
address record flushed, then a batch of two that contains it; and the accumulator holding
`blockA` flushed, then the accumulator to which another block and then `blockA` were added,
a superset that does not start with the first. -/
theorem C9_flush_idempotent_under_retry_witness :
    emptyStore.faultFree ∧ emptyStore.db.keysUnique ∧
    (∀ x ∈ [sampleIdAddress], x ∈ [otherIdAddress, sampleIdAddress]) ∧
    (IdAddressList.Persist [otherIdAddress, sampleIdAddress]
      (IdAddressList.Persist [sampleIdAddress] emptyStore).2).2.db.idAddresses.rows
      = {sampleIdAddress, otherIdAddress} ∧
    IdAddressList.Persist [otherIdAddress, sampleIdAddress]
      (IdAddressList.Persist [sampleIdAddress] emptyStore).2
      = IdAddressList.Persist [otherIdAddress, sampleIdAddress] emptyStore ∧
    (NewUnindexedBlockData.Add blockA).retrySafe emptyStore.db
      (NewUnindexedBlockData.addAll [mkBlock "b" 8, blockA]) ∧
    ((NewUnindexedBlockData.addAll [mkBlock "b" 8, blockA]).Persist (Equiv.refl Writer)
      ((NewUnindexedBlockData.Add blockA).Persist (Equiv.refl Writer)
        emptyStore).2).2.db.blockHeaders.rows
      = {NewBlockHeader blockA, NewBlockHeader (mkBlock "b" 8)} ∧
    (NewUnindexedBlockData.addAll [mkBlock "b" 8, blockA]).Persist (Equiv.refl Writer)
      ((NewUnindexedBlockData.Add blockA).Persist (Equiv.refl Writer) emptyStore).2
      = (NewUnindexedBlockData.addAll [mkBlock "b" 8, blockA]).Persist
          (Equiv.refl Writer) emptyStore :=
  have hff : emptyStore.faultFree :=
    ⟨⟨fun _ _ => rfl, fun _ _ => rfl, fun _ _ => rfl, fun _ _ => rfl, fun _ _ => rfl,
      fun _ _ => rfl, fun _ _ => rfl⟩, fun _ => rfl, fun _ => rfl⟩
  have hk : emptyStore.db.keysUnique := by
    simp [DB.keysUnique, Table.keysUnique, emptyStore, emptyDB, emptyTable]
  have hsup : ∀ x ∈ [sampleIdAddress], x ∈ [otherIdAddress, sampleIdAddress] := by decide
  have hsafe : (NewUnindexedBlockData.Add blockA).retrySafe emptyStore.db
      (NewUnindexedBlockData.addAll [mkBlock "b" 8, blockA]) := by
    unfold UnindexedBlockData.retrySafe retrySafe
    decide
  have h := C9_flush_idempotent_under_retry emptyStore [sampleIdAddress]
    [otherIdAddress, sampleIdAddress] (NewUnindexedBlockData.Add blockA)
    (NewUnindexedBlockData.addAll [mkBlock "b" 8, blockA]) [mkBlock "b" 8]
    (Equiv.refl Writer) (Equiv.refl Writer) (Equiv.refl Writer) hff hk
  ⟨hff, hk, hsup, by decide, h.1.2.2.2.2.2.2.1 hsup, hsafe, by decide,
    h.2.2.2.2.2.1.mpr hsafe⟩

end Visor
